import Mathlib

/-!
Verification development for the Researcher Terminal task tracker.

The development shallowly embeds the data model (`src/models.py`) and the
persistence / repository layer (`src/database.py`) and proves the behavioural
properties stated about them.

Modelling conventions:
* Python `datetime` instants are modelled as natural numbers; the ISO-8601
  string produced by `datetime.isoformat` is modelled by the dedicated JSON
  constructor `JValue.jtime`, since `datetime.fromisoformat` is a two-sided
  inverse of `isoformat` at serialization precision and ISO strings are
  nonempty (hence truthy).
* `datetime.now()` is modelled by threading an explicit `now` argument, and
  `uuid.uuid4()` by an explicit fresh-identifier argument.
* Python exceptions escaping a function are modelled with `Except PyErr`;
  fields are read at their serialized types, so a document storing a
  value of an unexpected shape is an error, which agrees with the code
  everywhere the properties below look.
* The mutable `Database.tasks` list is modelled by explicit state passing:
  each repository operation takes the task list and returns the new one.
-/

namespace ResearcherTerminal

/-! ### Data model (src/models.py) -/

/-- Python `datetime` instants, abstractly. -/
abbrev DateTime := Nat

/-- Task status enumeration (`TaskStatus` in models.py). -/
inductive TaskStatus where
  | PENDING
  | IN_PROGRESS
  | EXPLORING
  | COMPLETED
  | PAUSED
deriving DecidableEq, Repr

/-- Task mode enumeration (`TaskMode` in models.py). -/
inductive TaskMode where
  | PLANNING
  | EXPLORING
deriving DecidableEq, Repr

/-- Task knowledge enumeration (`TaskKnowledge` in models.py). -/
inductive TaskKnowledge where
  | KNOWN_WHAT_KNOWN_HOW
  | KNOWN_WHAT_UNKNOWN_HOW
  | UNKNOWN_WHAT
deriving DecidableEq, Repr

/-- The symbolic name of a status member (Python `status.name`). -/
def TaskStatus.name : TaskStatus → String
  | .PENDING => "PENDING"
  | .IN_PROGRESS => "IN_PROGRESS"
  | .EXPLORING => "EXPLORING"
  | .COMPLETED => "COMPLETED"
  | .PAUSED => "PAUSED"

/-- Name-indexed lookup (Python `TaskStatus[name]`); `none` models the
`KeyError` raised on an unknown name. -/
def TaskStatus.fromName : String → Option TaskStatus
  | "PENDING" => some .PENDING
  | "IN_PROGRESS" => some .IN_PROGRESS
  | "EXPLORING" => some .EXPLORING
  | "COMPLETED" => some .COMPLETED
  | "PAUSED" => some .PAUSED
  | _ => none

/-- The symbolic name of a mode member. -/
def TaskMode.name : TaskMode → String
  | .PLANNING => "PLANNING"
  | .EXPLORING => "EXPLORING"

/-- Name-indexed lookup for `TaskMode`. -/
def TaskMode.fromName : String → Option TaskMode
  | "PLANNING" => some .PLANNING
  | "EXPLORING" => some .EXPLORING
  | _ => none

/-- The symbolic name of a knowledge member. -/
def TaskKnowledge.name : TaskKnowledge → String
  | .KNOWN_WHAT_KNOWN_HOW => "KNOWN_WHAT_KNOWN_HOW"
  | .KNOWN_WHAT_UNKNOWN_HOW => "KNOWN_WHAT_UNKNOWN_HOW"
  | .UNKNOWN_WHAT => "UNKNOWN_WHAT"

/-- Name-indexed lookup for `TaskKnowledge`. -/
def TaskKnowledge.fromName : String → Option TaskKnowledge
  | "KNOWN_WHAT_KNOWN_HOW" => some .KNOWN_WHAT_KNOWN_HOW
  | "KNOWN_WHAT_UNKNOWN_HOW" => some .KNOWN_WHAT_UNKNOWN_HOW
  | "UNKNOWN_WHAT" => some .UNKNOWN_WHAT
  | _ => none

/-- Exploration note record (`ExplorationNote` dataclass). -/
structure ExplorationNote where
  id : String
  content : String
  insight : String
  created_at : DateTime
  updated_at : DateTime
  is_breakthrough : Bool
deriving DecidableEq, Repr

/-- Subtask record (`SubTask` dataclass). -/
structure SubTask where
  id : String
  title : String
  description : String
  status : TaskStatus
  order : Int
  created_at : DateTime
  completed_at : Option DateTime
  notes : String
deriving DecidableEq, Repr

/-- Main task record (`Task` dataclass). -/
structure Task where
  id : String
  title : String
  description : String
  order : Int
  status : TaskStatus
  mode : TaskMode
  knowledge : TaskKnowledge
  subtasks : List SubTask
  exploration_notes : List ExplorationNote
  created_at : DateTime
  updated_at : DateTime
  completed_at : Option DateTime
  priority : Int
  tags : List String
  conclusion : String
deriving DecidableEq, Repr

/-- `Task.add_subtask`: appends a fresh subtask with `order = len(subtasks)`
and touches `updated_at`. The fresh uuid and the clock are explicit. -/
def Task.add_subtask (t : Task) (newId : String) (now : DateTime)
    (title : String) (description : String) : SubTask × Task :=
  let subtask : SubTask :=
    { id := newId, title := title, description := description,
      status := .PENDING, order := Int.ofNat t.subtasks.length,
      created_at := now, completed_at := none, notes := "" }
  (subtask, { t with subtasks := t.subtasks ++ [subtask], updated_at := now })

/-- The `for st in self.subtasks` loop body of `Task.complete_subtask`:
returns the subtask list with the first id match completed, or `none` when
no subtask matches. -/
def completeSubtaskAux (now : DateTime) (sid : String) :
    List SubTask → Option (List SubTask)
  | [] => none
  | st :: rest =>
    if st.id = sid then
      some ({ st with status := .COMPLETED, completed_at := some now } :: rest)
    else
      (completeSubtaskAux now sid rest).map (st :: ·)

/-- `Task.complete_subtask`: completes the subtask with the given id, and if
all subtasks are then complete promotes the task itself; returns `false`
(with the task unchanged) when the id matches no subtask. -/
def Task.complete_subtask (t : Task) (sid : String) (now : DateTime) :
    Bool × Task :=
  match completeSubtaskAux now sid t.subtasks with
  | none => (false, t)
  | some subs =>
    let t1 := { t with subtasks := subs, updated_at := now }
    if subs.all (fun s => s.status = .COMPLETED) then
      (true, { t1 with status := .COMPLETED, completed_at := some now })
    else
      (true, t1)

/-! ### JSON document model (the backing file of src/database.py) -/

/-- JSON values as stored in the backing file. `jtime t` stands for the
ISO-8601 string serializing the instant `t` (see the module comment). -/
inductive JValue where
  | jnull
  | jbool (b : Bool)
  | jnum (n : Int)
  | jstr (s : String)
  | jtime (t : DateTime)
  | jarr (xs : List JValue)
  | jobj (fields : List (String × JValue))
deriving Repr

/-- Python exceptions that can escape deserialization. -/
inductive PyErr where
  | keyError (k : String)
  | valueError
  | typeError
deriving DecidableEq, Repr

/-- First-match key lookup in a JSON object's field list. -/
def lookupKey (k : String) : List (String × JValue) → Option JValue
  | [] => none
  | (k', v) :: rest => if k' = k then some v else lookupKey k rest

/-- Python `data.get(k)` / `data[k]` both start from this: a dictionary
lookup, raising when `data` is not a dictionary. -/
def JValue.getOpt : JValue → String → Except PyErr (Option JValue)
  | .jobj fs, k => .ok (lookupKey k fs)
  | _, _ => .error .typeError

/-- Python `data[k]`: raises `KeyError` on a missing key. -/
def JValue.getItem (v : JValue) (k : String) : Except PyErr JValue := do
  match ← v.getOpt k with
  | some x => .ok x
  | none => .error (.keyError k)

/-- Python `data.get(k, d)`. -/
def JValue.getD (v : JValue) (k : String) (d : JValue) : Except PyErr JValue := do
  match ← v.getOpt k with
  | some x => .ok x
  | none => .ok d

/-- Python truthiness of a JSON value. -/
def JValue.truthy : JValue → Bool
  | .jnull => false
  | .jbool b => b
  | .jnum n => n ≠ 0
  | .jstr s => ¬ s.isEmpty
  | .jtime _ => true
  | .jarr xs => ¬ xs.isEmpty
  | .jobj fs => ¬ fs.isEmpty

/-- Reads a string-typed field. -/
def JValue.asStr : JValue → Except PyErr String
  | .jstr s => .ok s
  | _ => .error .typeError

/-- Reads an integer-typed field. -/
def JValue.asInt : JValue → Except PyErr Int
  | .jnum n => .ok n
  | _ => .error .typeError

/-- Reads a boolean-typed field. -/
def JValue.asBool : JValue → Except PyErr Bool
  | .jbool b => .ok b
  | _ => .error .typeError

/-- Reads an array-typed field. -/
def JValue.asArr : JValue → Except PyErr (List JValue)
  | .jarr xs => .ok xs
  | _ => .error .typeError

/-- `datetime.fromisoformat`: succeeds exactly on ISO timestamp strings,
raises `ValueError` on other strings and `TypeError` on non-strings. -/
def fromisoformat : JValue → Except PyErr DateTime
  | .jtime t => .ok t
  | .jstr _ => .error .valueError
  | _ => .error .typeError

/-- Enum lookup `Enum[name]`, raising `KeyError` on an unknown name. -/
def enumByName (f : String → Option α) (s : String) : Except PyErr α :=
  match f s with
  | some x => .ok x
  | none => .error (.keyError s)

/-! ### Serialization (`Database._task_to_dict` and `Database._save`) -/

/-- The exploration-note dictionary built inside `_task_to_dict`. -/
def note_to_dict (note : ExplorationNote) : JValue :=
  .jobj [("id", .jstr note.id),
         ("content", .jstr note.content),
         ("insight", .jstr note.insight),
         ("created_at", .jtime note.created_at),
         ("updated_at", .jtime note.updated_at),
         ("is_breakthrough", .jbool note.is_breakthrough)]

/-- The subtask dictionary built inside `_task_to_dict`. -/
def subtask_to_dict (st : SubTask) : JValue :=
  .jobj [("id", .jstr st.id),
         ("title", .jstr st.title),
         ("description", .jstr st.description),
         ("status", .jstr st.status.name),
         ("order", .jnum st.order),
         ("created_at", .jtime st.created_at),
         ("completed_at", match st.completed_at with
                          | some d => .jtime d
                          | none => .jnull),
         ("notes", .jstr st.notes)]

/-- `Database._task_to_dict`. -/
def task_to_dict (task : Task) : JValue :=
  .jobj [("id", .jstr task.id),
         ("title", .jstr task.title),
         ("description", .jstr task.description),
         ("order", .jnum task.order),
         ("status", .jstr task.status.name),
         ("mode", .jstr task.mode.name),
         ("knowledge", .jstr task.knowledge.name),
         ("subtasks", .jarr (task.subtasks.map subtask_to_dict)),
         ("exploration_notes", .jarr (task.exploration_notes.map note_to_dict)),
         ("created_at", .jtime task.created_at),
         ("updated_at", .jtime task.updated_at),
         ("completed_at", match task.completed_at with
                          | some d => .jtime d
                          | none => .jnull),
         ("priority", .jnum task.priority),
         ("tags", .jarr (task.tags.map JValue.jstr)),
         ("conclusion", .jstr task.conclusion)]

/-- The document written by `Database._save`. -/
def save_doc (tasks : List Task) (now : DateTime) : JValue :=
  .jobj [("tasks", .jarr (tasks.map task_to_dict)),
         ("last_updated", .jtime now)]

/-! ### Deserialization (`Database._dict_to_task` and `Database._load`) -/

/-- Optional-truthy timestamp read:
`fromisoformat(d[k]) if d.get(k) else None`. -/
def readOptTime (d : JValue) (k : String) :
    Except PyErr (Option DateTime) := do
  match ← d.getOpt k with
  | some v =>
    if v.truthy then do
      let t ← fromisoformat v
      pure (some t)
    else
      pure none
  | none => pure none

/-- One exploration-note dictionary, as read by both the
`exploration_notes` loop and the `exploration_history` loop of
`_dict_to_task` (the two loops are textually identical). -/
def parse_note (d : JValue) : Except PyErr ExplorationNote := do
  let id ← (← d.getItem "id").asStr
  let content ← (← d.getItem "content").asStr
  let insight ← (← d.getD "insight" (.jstr "")).asStr
  let createdRaw ← d.getItem "created_at"
  let created_at ← fromisoformat createdRaw
  let updated_at ← fromisoformat (← d.getD "updated_at" createdRaw)
  let is_breakthrough ← (← d.getD "is_breakthrough" (.jbool false)).asBool
  pure { id := id, content := content, insight := insight,
         created_at := created_at, updated_at := updated_at,
         is_breakthrough := is_breakthrough }

/-- One subtask dictionary, as read by the `subtasks` loop of
`_dict_to_task`. -/
def parse_subtask (d : JValue) : Except PyErr SubTask := do
  let id ← (← d.getItem "id").asStr
  let title ← (← d.getItem "title").asStr
  let description ← (← d.getD "description" (.jstr "")).asStr
  let status ← enumByName TaskStatus.fromName (← (← d.getItem "status").asStr)
  let order ← (← d.getD "order" (.jnum 0)).asInt
  let created_at ← fromisoformat (← d.getItem "created_at")
  let completed_at ← readOptTime d "completed_at"
  let notes ← (← d.getD "notes" (.jstr "")).asStr
  pure { id := id, title := title, description := description,
         status := status, order := order, created_at := created_at,
         completed_at := completed_at, notes := notes }

/-- The in-order element loop over a JSON list (each Python `for` loop in
`_dict_to_task` appends its parses in order and propagates exceptions). -/
def parseList (f : JValue → Except PyErr α) : List JValue → Except PyErr (List α)
  | [] => .ok []
  | d :: rest => do
    let x ← f d
    let xs ← parseList f rest
    pure (x :: xs)

/-- `Database._dict_to_task`. -/
def dict_to_task (d : JValue) (default_order : Int) : Except PyErr Task := do
  let id ← (← d.getItem "id").asStr
  let title ← (← d.getItem "title").asStr
  let description ← (← d.getD "description" (.jstr "")).asStr
  let order ← (← d.getD "order" (.jnum default_order)).asInt
  let status ← enumByName TaskStatus.fromName (← (← d.getItem "status").asStr)
  let mode ← enumByName TaskMode.fromName (← (← d.getItem "mode").asStr)
  let knowledge ←
    enumByName TaskKnowledge.fromName (← (← d.getItem "knowledge").asStr)
  let created_at ← fromisoformat (← d.getItem "created_at")
  let updated_at ← fromisoformat (← d.getItem "updated_at")
  let completed_at ← readOptTime d "completed_at"
  let priority ← (← d.getD "priority" (.jnum 0)).asInt
  let tags ← parseList JValue.asStr (← (← d.getD "tags" (.jarr [])).asArr)
  let conclusion ← (← d.getD "conclusion" (.jstr "")).asStr
  let subtasks ←
    parseList parse_subtask (← (← d.getD "subtasks" (.jarr [])).asArr)
  let direct ←
    parseList parse_note (← (← d.getD "exploration_notes" (.jarr [])).asArr)
  let history ← d.getOpt "exploration_history"
  let legacy ← match history with
    | some hv =>
      if hv.truthy then do parseList parse_note (← hv.asArr) else pure []
    | none => pure []
  pure { id := id, title := title, description := description, order := order,
         status := status, mode := mode, knowledge := knowledge,
         subtasks := subtasks, exploration_notes := direct ++ legacy,
         created_at := created_at, updated_at := updated_at,
         completed_at := completed_at, priority := priority, tags := tags,
         conclusion := conclusion }

/-- The `enumerate` list comprehension in `Database._load`, carrying the
positional index used as the default order. -/
def loadTasksAux (i : Nat) : List JValue → Except PyErr (List Task)
  | [] => .ok []
  | d :: rest => do
    let t ← dict_to_task d (Int.ofNat i)
    let ts ← loadTasksAux (i + 1) rest
    pure (t :: ts)

/-- The states the backing file can be in, as far as `_load` distinguishes
them: absent, unreadable (`IOError`), syntactically invalid
(`json.JSONDecodeError`), or a parsed JSON document. -/
inductive FileState where
  | missing
  | ioError
  | badJson
  | json (v : JValue)

/-- `Database._load`: missing file gives the empty collection, `IOError`
and `json.JSONDecodeError` are caught, and any other exception thrown
while converting a parsed document propagates. -/
def load : FileState → Except PyErr (List Task)
  | .missing => .ok []
  | .ioError => .ok []
  | .badJson => .ok []
  | .json v => do
    let tasksVal ← v.getD "tasks" (.jarr [])
    let arr ← tasksVal.asArr
    loadTasksAux 0 arr

/-! ### Repository operations (src/database.py) -/

/-- `Database.get_task`: first task with the given id. -/
def get_task : List Task → String → Option Task
  | [], _ => none
  | t :: ts, tid => if t.id = tid then some t else get_task ts tid

/-- In-place mutation of the task found by `get_task`: the first task whose
id matches is replaced by `f` of it; the rest of the list is untouched. -/
def update_first_task (f : Task → Task) : List Task → String → List Task
  | [], _ => []
  | t :: ts, tid =>
    if t.id = tid then f t :: ts else t :: update_first_task f ts tid

/-- `Database.create_task`: builds the new task (with `order` the current
collection length and status derived from the mode), appends it, and
returns it. -/
def create_task (db : List Task) (newId : String) (now : DateTime)
    (title : String) (description : String) (mode : TaskMode)
    (knowledge : TaskKnowledge) (priority : Int) : Task × List Task :=
  let task : Task :=
    { id := newId, title := title, description := description,
      order := Int.ofNat db.length,
      status := if mode = .EXPLORING then .EXPLORING else .PENDING,
      mode := mode, knowledge := knowledge, subtasks := [],
      exploration_notes := [], created_at := now, updated_at := now,
      completed_at := none, priority := priority, tags := [],
      conclusion := "" }
  (task, db ++ [task])

/-- `Database.add_subtask`: delegates to `Task.add_subtask` and, if the
parent was COMPLETED, demotes it to IN_PROGRESS clearing `completed_at`. -/
def db_add_subtask (db : List Task) (task_id : String) (newId : String)
    (now : DateTime) (title : String) (description : String) :
    Option SubTask × List Task :=
  match get_task db task_id with
  | none => (none, db)
  | some task =>
    let p := task.add_subtask newId now title description
    let task2 :=
      if p.2.status = .COMPLETED then
        { p.2 with status := .IN_PROGRESS, completed_at := none }
      else p.2
    (some p.1, update_first_task (fun _ => task2) db task_id)

/-- A `**kwargs` patch over `SubTask` attributes: `setattr` is applied for
exactly the provided keys (`hasattr` filters unknown keys out, which a
field-typed patch record cannot express in the first place). -/
structure SubTaskPatch where
  id : Option String := none
  title : Option String := none
  description : Option String := none
  status : Option TaskStatus := none
  order : Option Int := none
  created_at : Option DateTime := none
  completed_at : Option (Option DateTime) := none
  notes : Option String := none
deriving Repr

/-- Applies a patch to a subtask (the `setattr` loop). -/
def applyPatch (p : SubTaskPatch) (st : SubTask) : SubTask :=
  { id := p.id.getD st.id, title := p.title.getD st.title,
    description := p.description.getD st.description,
    status := p.status.getD st.status, order := p.order.getD st.order,
    created_at := p.created_at.getD st.created_at,
    completed_at := p.completed_at.getD st.completed_at,
    notes := p.notes.getD st.notes }

/-- The `for st in task.subtasks` loop of `Database.update_subtask`:
patches the first id match in place, returning the patched subtask and the
updated list, or `none` when no subtask matches. -/
def updateSubtaskAux (p : SubTaskPatch) (sid : String) :
    List SubTask → Option (SubTask × List SubTask)
  | [] => none
  | st :: rest =>
    if st.id = sid then
      let st' := applyPatch p st
      some (st', st' :: rest)
    else
      (updateSubtaskAux p sid rest).map (fun q => (q.1, st :: q.2))

/-- `Database.update_subtask`: generic patch of a subtask, touching the
task's `updated_at` and re-checking the completed-task invariant. -/
def update_subtask (db : List Task) (task_id : String) (subtask_id : String)
    (p : SubTaskPatch) (now : DateTime) : Option SubTask × List Task :=
  match get_task db task_id with
  | none => (none, db)
  | some task =>
    match updateSubtaskAux p subtask_id task.subtasks with
    | none => (none, db)
    | some (st', subs) =>
      let t1 := { task with subtasks := subs, updated_at := now }
      let t2 :=
        if t1.status = .COMPLETED ∧
            t1.subtasks.any (fun s => s.status ≠ .COMPLETED) then
          { t1 with status := .IN_PROGRESS, completed_at := none }
        else t1
      (some st', update_first_task (fun _ => t2) db task_id)

/-- `Database.delete_task`: pops the first task with the given id; no order
re-normalization happens. -/
def delete_task : List Task → String → List Task × Bool
  | [], _ => ([], false)
  | t :: ts, tid =>
    if t.id = tid then (ts, true)
    else
      let r := delete_task ts tid
      (t :: r.1, r.2)

/-- The removal loop of `Database.delete_subtask`: pops the first subtask
with the given id, or `none` when no subtask matches. -/
def removeFirstSubtask (sid : String) : List SubTask → Option (List SubTask)
  | [] => none
  | st :: rest =>
    if st.id = sid then some rest
    else (removeFirstSubtask sid rest).map (st :: ·)

/-- The `for j, remaining in enumerate(...)` loop: re-assigns order fields
positionally starting from `k`. -/
def reassignOrdersFrom (k : Nat) : List SubTask → List SubTask
  | [] => []
  | st :: rest =>
    { st with order := Int.ofNat k } :: reassignOrdersFrom (k + 1) rest

/-- Order re-normalization to `0..N-1`. -/
def reassignOrders (sts : List SubTask) : List SubTask :=
  reassignOrdersFrom 0 sts

/-- `Database.delete_subtask`: removes the subtask and re-normalizes the
remaining siblings' order fields. -/
def delete_subtask (db : List Task) (task_id : String) (subtask_id : String)
    (now : DateTime) : List Task × Bool :=
  match get_task db task_id with
  | none => (db, false)
  | some task =>
    match removeFirstSubtask subtask_id task.subtasks with
    | none => (db, false)
    | some rest =>
      let task' :=
        { task with subtasks := reassignOrders rest, updated_at := now }
      (update_first_task (fun _ => task') db task_id, true)

/-- The Python tuple swap `l[i], l[j] = l[j], l[i]` on list positions. -/
def swapList (l : List α) (i j : Nat) : List α :=
  match l[i]?, l[j]? with
  | some a, some b => (l.set i b).set j a
  | _, _ => l

/-- The sort key of `move_subtask`: ascending `order`. -/
def subLe (a b : SubTask) : Prop := a.order ≤ b.order

instance : DecidableRel subLe := fun a b =>
  inferInstanceAs (Decidable (a.order ≤ b.order))

/-- `Database.move_subtask`. Python sorts the subtask objects by `order`
(`sorted` is a stable sort, modelled by the stable `insertionSort`), swaps
two positions of that arrangement, and re-assigns each object's `order`
field to its position in it. The objects being shared with `task.subtasks`,
and subtask ids being uuids (distinct), the in-place field writes amount to
setting each stored subtask's `order` to the position, found by id, that it
occupies in the swapped arrangement. -/
def move_subtask (db : List Task) (task_id : String) (subtask_id : String)
    (direction : Int) (now : DateTime) : List Task × Bool :=
  match get_task db task_id with
  | none => (db, false)
  | some task =>
    let ordered := List.insertionSort subLe task.subtasks
    match ordered.findIdx? (fun st => st.id = subtask_id) with
    | none => (db, false)
    | some current_index =>
      let new_index : Int := Int.ofNat current_index + direction
      if 0 ≤ new_index ∧ new_index < Int.ofNat ordered.length then
        let swapped := swapList ordered current_index new_index.toNat
        let subs := task.subtasks.map (fun st =>
          match swapped.findIdx? (fun x => x.id = st.id) with
          | some j => { st with order := Int.ofNat j }
          | none => st)
        let task' := { task with subtasks := subs, updated_at := now }
        (update_first_task (fun _ => task') db task_id, true)
      else (db, false)

/-! ### Search (src/database.py) -/

/-- Python `str.lower()`. -/
def pyLower (s : String) : String := ⟨s.data.map Char.toLower⟩

/-- Python `str.strip()`. -/
def pyStrip (s : String) : String :=
  ⟨((s.data.dropWhile Char.isWhitespace).reverse.dropWhile
      Char.isWhitespace).reverse⟩

/-- Python substring test `needle in hay`. -/
def strContains (hay needle : String) : Prop := needle.data <:+: hay.data

instance : ∀ hay needle, Decidable (strContains hay needle) := fun hay needle =>
  inferInstanceAs (Decidable (needle.data <:+: hay.data))

/-- `Database.search_tasks`: case-insensitive substring match against
title, description, or any tag; matches are collected in task order. -/
def search_tasks (db : List Task) (keyword : String) : List Task :=
  let kw := pyLower keyword
  db.filter (fun task =>
    strContains (pyLower task.title) kw ∨
    strContains (pyLower task.description) kw ∨
    task.tags.any (fun tag => decide (strContains (pyLower tag) kw)))

/-- Search-result projection (`ExplorationNoteSearchResult` dataclass). -/
structure ExplorationNoteSearchResult where
  task_id : String
  task_title : String
  task_mode : TaskMode
  note : ExplorationNote
  is_history : Bool
deriving DecidableEq, Repr

/-- `Database._match_note_keyword`. -/
def match_note_keyword (note : ExplorationNote) (keyword : String) : Bool :=
  let needle := pyLower keyword
  strContains (pyLower note.content) needle ∨
    strContains (pyLower note.insight) needle

/-- `Database.search_exploration_notes_global`: trims then lowers the
keyword, guards on emptiness, and scans every task's notes in order. -/
def search_exploration_notes_global (db : List Task) (keyword : String) :
    List ExplorationNoteSearchResult :=
  let kw := pyLower (pyStrip keyword)
  if kw.isEmpty then []
  else
    db.flatMap (fun task =>
      (task.exploration_notes.filter (fun note => match_note_keyword note kw)).map
        (fun note =>
          { task_id := task.id, task_title := task.title,
            task_mode := task.mode, note := note, is_history := false }))

/-! ### Merge (src/database.py, `merge_tasks_exploration_notes`) -/

/-- The merge sort key: ascending `created_at`. -/
def noteLe (a b : ExplorationNote) : Prop := a.created_at ≤ b.created_at

instance : DecidableRel noteLe := fun a b =>
  inferInstanceAs (Decidable (a.created_at ≤ b.created_at))

/-- The three outcomes of `merge_tasks_exploration_notes`: `False`, `True`
(merge into an existing target), or the id of the newly created task. -/
inductive MergeRes where
  | failed
  | ok
  | created (id : String)
deriving DecidableEq, Repr

/-- Appends to a target task all collected notes whose id it does not
already hold, and touches its `updated_at` (the tail of the merge). -/
def mergeIntoTarget (target : Task) (sorted : List ExplorationNote)
    (now : DateTime) : Task :=
  let existing := target.exploration_notes.map (fun n => n.id)
  let toAdd := sorted.filter (fun n => ¬ existing.contains n.id)
  { target with exploration_notes := target.exploration_notes ++ toAdd,
                updated_at := now }

/-- `Database.merge_tasks_exploration_notes`. Source tasks are looked up
first; with a non-empty `new_task_title` a fresh EXPLORING task is created
(and the code keeps a direct reference to it, so the note append lands on
that appended element); otherwise the existing target is looked up. All
source notes are collected in source order, stably sorted by `created_at`
(Python `list.sort`), and appended to the target skipping ids it already
holds. -/
def merge_tasks_exploration_notes (db : List Task)
    (source_task_ids : List String) (target_task_id : String)
    (new_task_title : String) (newId : String) (now : DateTime) :
    List Task × MergeRes :=
  if source_task_ids.isEmpty then (db, .failed)
  else
    let source_opts := source_task_ids.map (get_task db)
    if source_opts.all Option.isSome then
      let sources := source_opts.filterMap id
      let all_notes := (sources.map Task.exploration_notes).flatten
      let sorted := List.insertionSort noteLe all_notes
      if new_task_title.isEmpty then
        match get_task db target_task_id with
        | none => (db, .failed)
        | some target =>
          (update_first_task (fun _ => mergeIntoTarget target sorted now) db
             target_task_id, .ok)
      else
        let p := create_task db newId now new_task_title "" .EXPLORING
          .KNOWN_WHAT_UNKNOWN_HOW 0
        (db ++ [mergeIntoTarget p.1 sorted now], .created newId)
    else (db, .failed)

/-! ### Helper lemmas about the repository state -/

theorem get_task_id : ∀ {db : List Task} {tid : String} {t : Task},
    get_task db tid = some t → t.id = tid := by
  intro db tid t h
  induction db with
  | nil => simp [get_task] at h
  | cons x xs ih =>
    by_cases hx : x.id = tid
    · simp only [get_task, hx, reduceIte, Option.some.injEq] at h
      rw [← h]; exact hx
    · simp only [get_task, hx, reduceIte] at h
      exact ih h

theorem get_task_update_first_const {db : List Task} {tid : String}
    {c t : Task} (hc : c.id = tid) (h : get_task db tid = some t) :
    get_task (update_first_task (fun _ => c) db tid) tid = some c := by
  induction db with
  | nil => simp [get_task] at h
  | cons x xs ih =>
    by_cases hx : x.id = tid
    · simp [update_first_task, get_task, hx, hc]
    · simp only [get_task, hx, reduceIte] at h
      simp [update_first_task, get_task, hx, ih h]

theorem get_task_append_left {db : List Task} {tid : String} {t : Task}
    (h : get_task db tid = some t) (more : List Task) :
    get_task (db ++ more) tid = some t := by
  induction db with
  | nil => simp [get_task] at h
  | cons x xs ih =>
    by_cases hx : x.id = tid
    · simp [get_task, hx] at h ⊢; exact h
    · simp [get_task, hx] at h ⊢; exact ih h

theorem get_task_eq_none {db : List Task} {tid : String}
    (h : ∀ t ∈ db, t.id ≠ tid) : get_task db tid = none := by
  induction db with
  | nil => rfl
  | cons x xs ih =>
    simp only [get_task, h x (by simp), if_false, reduceIte]
    exact ih (fun t ht => h t (by simp [ht]))

theorem get_task_append_of_none {db : List Task} {tid : String}
    (h : get_task db tid = none) (more : List Task) :
    get_task (db ++ more) tid = get_task more tid := by
  induction db with
  | nil => rfl
  | cons x xs ih =>
    by_cases hx : x.id = tid
    · simp [get_task, hx] at h
    · simp [get_task, hx] at h ⊢; exact ih h

theorem update_first_task_append_of_ne (f : Task → Task) {db : List Task}
    {tid : String} (h : ∀ t ∈ db, t.id ≠ tid) (more : List Task) :
    update_first_task f (db ++ more) tid = db ++ update_first_task f more tid := by
  induction db with
  | nil => rfl
  | cons x xs ih =>
    simp only [List.cons_append, update_first_task, h x (by simp), reduceIte]
    have := ih (fun t ht => h t (by simp [ht]))
    simp only [List.append_eq] at this ⊢
    rw [this]

theorem get_task_update_first_of_ne (c : Task) :
    ∀ (db : List Task) (tid sid : String), c.id = tid → sid ≠ tid →
      get_task (update_first_task (fun _ => c) db tid) sid = get_task db sid := by
  intro db tid sid hc hne
  induction db with
  | nil => rfl
  | cons x xs ih =>
    by_cases hx : x.id = tid
    · have hxs : x.id ≠ sid := fun h => hne (hx ▸ h ▸ rfl)
      have hcs : c.id ≠ sid := fun h => hne (hc ▸ h ▸ rfl)
      simp only [update_first_task, hx, reduceIte]
      simp only [get_task, hcs, hxs, reduceIte]
    · simp only [update_first_task, hx, reduceIte]
      by_cases hx2 : x.id = sid
      · simp only [get_task, hx2, reduceIte]
      · simp only [get_task, hx2, reduceIte, ih]

theorem reassignOrdersFrom_map_order :
    ∀ (k : Nat) (l : List SubTask),
      (reassignOrdersFrom k l).map (fun s => s.order) =
        (List.range' k l.length).map Int.ofNat := by
  intro k l
  induction l generalizing k with
  | nil => rfl
  | cons st rest ih =>
    simp [reassignOrdersFrom, List.range'_succ, ih]

theorem reassignOrders_map_order (l : List SubTask) :
    (reassignOrders l).map (fun s => s.order) =
      (List.range l.length).map Int.ofNat := by
  rw [reassignOrders, reassignOrdersFrom_map_order, List.range_eq_range']

theorem completeSubtaskAux_of_not_mem (now : DateTime) (sid : String) :
    ∀ l : List SubTask, (∀ s ∈ l, s.id ≠ sid) →
      completeSubtaskAux now sid l = none := by
  intro l h
  induction l with
  | nil => rfl
  | cons x xs ih =>
    simp only [completeSubtaskAux, h x (by simp), reduceIte]
    rw [ih (fun s hs => h s (by simp [hs]))]
    rfl

theorem completeSubtaskAux_found (now : DateTime) (sid : String) :
    ∀ (l : List SubTask) (st : SubTask),
      (l.map (fun s => s.id)).Nodup → st ∈ l → st.id = sid →
      ∃ l₁ l₂, l = l₁ ++ st :: l₂ ∧ (∀ s ∈ l₁, s.id ≠ sid) ∧
        completeSubtaskAux now sid l =
          some (l₁ ++
            ({ st with status := .COMPLETED, completed_at := some now } :: l₂)) := by
  intro l
  induction l with
  | nil => intro st _ h; simp at h
  | cons x xs ih =>
    intro st hnd hmem hsid
    rw [List.map_cons, List.nodup_cons] at hnd
    by_cases hx : x.id = sid
    · have hst : st = x := by
        rcases List.mem_cons.mp hmem with h | h
        · exact h
        · exfalso
          apply hnd.1
          have hm : st.id ∈ xs.map (fun s => s.id) :=
            List.mem_map_of_mem (fun s => s.id) h
          rwa [hsid, ← hx] at hm
      subst hst
      exact ⟨[], xs, by simp, by simp, by simp [completeSubtaskAux, hx]⟩
    · have hmem' : st ∈ xs := by
        rcases List.mem_cons.mp hmem with h | h
        · exact absurd (h ▸ hsid) hx
        · exact h
      obtain ⟨l₁, l₂, heq, hl₁, haux⟩ := ih st hnd.2 hmem' hsid
      refine ⟨x :: l₁, l₂, by simp [heq], ?_, ?_⟩
      · intro s hs
        rcases List.mem_cons.mp hs with h | h
        · exact h ▸ hx
        · exact hl₁ s h
      · simp [completeSubtaskAux, hx, haux]

/-- C7: completing the last incomplete subtask promotes the parent task to
COMPLETED with a non-null `completed_at`, and marks the subtask COMPLETED
with a non-null `completed_at`; `complete_subtask` returns false when the
id matches no subtask. -/
theorem complete_last_subtask_promotes :
    (∀ (t : Task) (st : SubTask) (now : DateTime),
        (t.subtasks.map (fun s => s.id)).Nodup →
        st ∈ t.subtasks → st.status ≠ .COMPLETED →
        (∀ s ∈ t.subtasks, s.status = .COMPLETED ∨ s = st) →
        ∃ t', t.complete_subtask st.id now = (true, t') ∧
          t'.subtasks.find? (fun s => s.id = st.id) =
            some { st with status := .COMPLETED, completed_at := some now } ∧
          t'.status = .COMPLETED ∧ t'.completed_at = some now) ∧
    (∀ (t : Task) (sid : String) (now : DateTime),
        (∀ s ∈ t.subtasks, s.id ≠ sid) →
        t.complete_subtask sid now = (false, t)) := by
  constructor
  · intro t st now hnd hmem hincomplete honly
    obtain ⟨l₁, l₂, heq, hl₁, haux⟩ :=
      completeSubtaskAux_found now st.id t.subtasks st hnd hmem rfl
    have hst_notin : st ∉ l₁ := fun h => hl₁ st h rfl
    set stC : SubTask :=
      { st with status := .COMPLETED, completed_at := some now } with hstC
    have hnd2 : ((l₁ ++ st :: l₂).map (fun s => s.id)).Nodup := heq ▸ hnd
    rw [List.map_append, List.map_cons] at hnd2
    have hst_notin₂ : st.id ∉ l₂.map (fun s => s.id) := by
      have h3 := (List.nodup_append.mp hnd2).2.1
      rw [List.nodup_cons] at h3
      exact h3.1
    have hall : (l₁ ++ stC :: l₂).all (fun s => s.status = .COMPLETED) := by
      rw [List.all_eq_true]
      intro s hs
      rcases List.mem_append.mp hs with h | h
      · rcases honly s (heq ▸ List.mem_append_left _ h) with hc | hc
        · simpa using hc
        · exact absurd (hc ▸ h) hst_notin
      · rcases List.mem_cons.mp h with h | h
        · simp [h, hstC]
        · rcases honly s (heq ▸ by simp [h]) with hc | hc
          · simpa using hc
          · exfalso
            apply hst_notin₂
            have := List.mem_map_of_mem (fun x => x.id) h
            rwa [hc] at this
    refine ⟨{ t with subtasks := l₁ ++ stC :: l₂, updated_at := now, status := TaskStatus.COMPLETED, completed_at := some now }, ?_, ?_, rfl, rfl⟩
    · unfold Task.complete_subtask
      rw [haux]
      simp only [hall, reduceIte]
    · show (l₁ ++ stC :: l₂).find? (fun s => s.id = st.id) = some stC
      rw [List.find?_append]
      have h₁ : l₁.find? (fun s => s.id = st.id) = none := by
        rw [List.find?_eq_none]
        intro x hx
        simp [hl₁ x hx]
      have h₂ : (stC :: l₂).find? (fun s => s.id = st.id) = some stC := by
        have : stC.id = st.id := rfl
        simp [List.find?_cons, this]
      simp [h₁, h₂]
  · intro t sid now h
    unfold Task.complete_subtask
    rw [completeSubtaskAux_of_not_mem now sid t.subtasks h]

/-- Sample data: a task whose only incomplete subtask is `wSub2`. -/
def wSub1 : SubTask :=
  { id := "s1", title := "first", description := "", status := .COMPLETED,
    order := 0, created_at := 1, completed_at := some 2, notes := "" }

/-- Sample incomplete subtask. -/
def wSub2 : SubTask :=
  { id := "s2", title := "second", description := "", status := .PENDING,
    order := 1, created_at := 1, completed_at := none, notes := "" }

/-- Sample parent task for the completion property. -/
def wTask7 : Task :=
  { id := "t7", title := "parent", description := "", order := 0,
    status := .IN_PROGRESS, mode := .PLANNING,
    knowledge := .KNOWN_WHAT_KNOWN_HOW, subtasks := [wSub1, wSub2],
    exploration_notes := [], created_at := 0, updated_at := 0,
    completed_at := none, priority := 0, tags := [], conclusion := "" }

/-- Witness for C7 at a concrete task. -/
theorem complete_last_subtask_promotes_witness :
    ((wTask7.subtasks.map (fun s => s.id)).Nodup ∧
      wSub2 ∈ wTask7.subtasks ∧ wSub2.status ≠ .COMPLETED ∧
      (∀ s ∈ wTask7.subtasks, s.status = .COMPLETED ∨ s = wSub2) ∧
      (∀ s ∈ wTask7.subtasks, s.id ≠ "nope")) ∧
    (∃ t', wTask7.complete_subtask wSub2.id 9 = (true, t') ∧
      t'.subtasks.find? (fun s => s.id = wSub2.id) =
        some { wSub2 with status := .COMPLETED, completed_at := some 9 } ∧
      t'.status = .COMPLETED ∧ t'.completed_at = some 9) ∧
    wTask7.complete_subtask "nope" 9 = (false, wTask7) :=
  ⟨⟨by decide, by decide, by decide, by decide, by decide⟩,
    complete_last_subtask_promotes.1 wTask7 wSub2 9 (by decide) (by decide)
      (by decide) (by decide),
    complete_last_subtask_promotes.2 wTask7 "nope" 9 (by decide)⟩

/-- C8: `search_tasks` with the empty keyword returns every task, while
`search_exploration_notes_global` with an empty or whitespace-only keyword
returns the empty list. -/
theorem search_empty_keyword_asymmetry :
    ∀ (db : List Task) (kw : String), pyStrip kw = "" →
      search_tasks db "" = db ∧
      search_exploration_notes_global db kw = [] := by
  intro db kw hkw
  constructor
  · show db.filter _ = db
    apply List.filter_eq_self.mpr
    intro task _
    apply decide_eq_true
    exact Or.inl List.nil_infix
  · show (if (pyLower (pyStrip kw)).isEmpty = true then _ else _) = _
    rw [hkw]
    rfl

/-- Sample database for the search witness: one task with a note. -/
def wNoteA : ExplorationNote :=
  { id := "na", content := "alpha result", insight := "", created_at := 3,
    updated_at := 3, is_breakthrough := false }

/-- Sample exploring task holding `wNoteA`. -/
def wTaskS : Task :=
  { id := "ts", title := "Survey", description := "broad reading", order := 0,
    status := .EXPLORING, mode := .EXPLORING,
    knowledge := .KNOWN_WHAT_UNKNOWN_HOW, subtasks := [],
    exploration_notes := [wNoteA], created_at := 0, updated_at := 0,
    completed_at := none, priority := 0, tags := ["reading"],
    conclusion := "" }

/-- Witness for C8 at a concrete database and whitespace keyword. -/
theorem search_empty_keyword_asymmetry_witness :
    pyStrip "  " = "" ∧
    (search_tasks [wTaskS] "" = [wTaskS] ∧
      search_exploration_notes_global [wTaskS] "  " = []) :=
  ⟨by decide, search_empty_keyword_asymmetry [wTaskS] "  " (by decide)⟩

theorem delete_task_spec :
    ∀ (db : List Task) (tid : String) (t : Task), get_task db tid = some t →
      (delete_task db tid).2 = true ∧ (delete_task db tid).1.Sublist db := by
  intro db tid t h
  induction db with
  | nil => simp [get_task] at h
  | cons x xs ih =>
    by_cases hx : x.id = tid
    · simp only [delete_task, hx, reduceIte]
      exact ⟨by trivial, List.sublist_cons_self x xs⟩
    · simp only [get_task, hx, reduceIte] at h
      obtain ⟨h1, h2⟩ := ih h
      simp only [delete_task, hx, reduceIte]
      exact ⟨h1, List.Sublist.cons₂ x h2⟩

/-- C10: `delete_task` leaves every remaining task untouched (in particular
its `order` field, so a gap remains), while `delete_subtask` re-assigns the
remaining siblings' order fields to `0..N-1`. -/
theorem delete_order_frame :
    (∀ (db : List Task) (tid : String) (t : Task),
        get_task db tid = some t →
        (delete_task db tid).2 = true ∧
        (delete_task db tid).1.Sublist db ∧
        ((delete_task db tid).1.map (fun x => x.order)).Sublist
          (db.map (fun x => x.order))) ∧
    (∀ (db : List Task) (tid sid : String) (now : DateTime) (task : Task)
        (rest : List SubTask),
        get_task db tid = some task →
        removeFirstSubtask sid task.subtasks = some rest →
        (delete_subtask db tid sid now).2 = true ∧
        ∃ t', get_task (delete_subtask db tid sid now).1 tid = some t' ∧
          t'.subtasks = reassignOrders rest ∧
          t'.subtasks.map (fun s => s.order) =
            (List.range rest.length).map Int.ofNat) := by
  constructor
  · intro db tid t h
    obtain ⟨h1, h2⟩ := delete_task_spec db tid t h
    exact ⟨h1, h2, h2.map (fun x => x.order)⟩
  · intro db tid sid now task rest hget hrem
    simp only [delete_subtask, hget, hrem]
    refine ⟨by trivial, { task with subtasks := reassignOrders rest, updated_at := now }, ?_, rfl, ?_⟩
    · have hid : task.id = tid := get_task_id hget
      exact get_task_update_first_const hid hget
    · show (reassignOrders rest).map (fun s => s.order) = _
      rw [reassignOrders_map_order]

/-- Sample tasks for the deletion witness. -/
def wTaskD1 : Task :=
  { id := "d1", title := "one", description := "", order := 0,
    status := .PENDING, mode := .PLANNING,
    knowledge := .KNOWN_WHAT_KNOWN_HOW,
    subtasks := [wSub1, wSub2,
      { id := "s3", title := "third", description := "", status := .PENDING,
        order := 2, created_at := 1, completed_at := none, notes := "" }],
    exploration_notes := [], created_at := 0, updated_at := 0,
    completed_at := none, priority := 0, tags := [], conclusion := "" }

/-- Second sample task for the deletion witness. -/
def wTaskD2 : Task :=
  { id := "d2", title := "two", description := "", order := 1,
    status := .PENDING, mode := .PLANNING,
    knowledge := .KNOWN_WHAT_KNOWN_HOW, subtasks := [],
    exploration_notes := [], created_at := 0, updated_at := 0,
    completed_at := none, priority := 0, tags := [], conclusion := "" }

/-- Witness for C10: deleting the first task leaves the second with its old
order `1` (a gap), and deleting the middle subtask of `wTaskD1`
re-normalizes sibling orders to `0..1`. -/
theorem delete_order_frame_witness :
    (get_task [wTaskD1, wTaskD2] "d1" = some wTaskD1 ∧
      (delete_task [wTaskD1, wTaskD2] "d1").2 = true ∧
      (delete_task [wTaskD1, wTaskD2] "d1").1.Sublist [wTaskD1, wTaskD2] ∧
      ((delete_task [wTaskD1, wTaskD2] "d1").1.map (fun x => x.order)).Sublist
        ([wTaskD1, wTaskD2].map (fun x => x.order))) ∧
    ((delete_subtask [wTaskD1, wTaskD2] "d1" "s2" 7).2 = true ∧
      ∃ t', get_task (delete_subtask [wTaskD1, wTaskD2] "d1" "s2" 7).1 "d1" =
          some t' ∧
        t'.subtasks = reassignOrders
          [wSub1, { id := "s3", title := "third", description := "",
                    status := .PENDING, order := 2, created_at := 1,
                    completed_at := none, notes := "" }] ∧
        t'.subtasks.map (fun s => s.order) =
          (List.range 2).map Int.ofNat) :=
  ⟨⟨by decide, (delete_order_frame.1 [wTaskD1, wTaskD2] "d1" wTaskD1 (by decide)).1,
     (delete_order_frame.1 [wTaskD1, wTaskD2] "d1" wTaskD1 (by decide)).2.1,
     (delete_order_frame.1 [wTaskD1, wTaskD2] "d1" wTaskD1 (by decide)).2.2⟩,
   delete_order_frame.2 [wTaskD1, wTaskD2] "d1" "s2" 7 wTaskD1 _ (by decide) (by decide)⟩

theorem updateSubtaskAux_mem {p : SubTaskPatch} {sid : String} :
    ∀ {l : List SubTask} {q : SubTask × List SubTask},
      updateSubtaskAux p sid l = some q → q.1 ∈ q.2 := by
  intro l
  induction l with
  | nil => intro q h; simp [updateSubtaskAux] at h
  | cons st rest ih =>
    intro q h
    by_cases hx : st.id = sid
    · simp only [updateSubtaskAux, hx, reduceIte, Option.some.injEq] at h
      rw [← h]
      exact List.mem_cons_self _ _
    · simp only [updateSubtaskAux, hx, reduceIte, Option.map_eq_some'] at h
      obtain ⟨q', hq', rfl⟩ := h
      exact List.mem_cons_of_mem st (ih hq')

/-- C2: a mutation that leaves a subtask incomplete while the task is
COMPLETED reverts the task to IN_PROGRESS and clears `completed_at`:
`add_subtask` always does so on a COMPLETED parent (the new subtask is
PENDING), and `update_subtask` does so whenever the patched subtask ends up
non-COMPLETED. -/
theorem completed_task_self_healing :
    (∀ (db : List Task) (tid newId : String) (now : DateTime)
        (title desc : String) (t : Task),
        get_task db tid = some t → t.status = .COMPLETED →
        (db_add_subtask db tid newId now title desc).1.isSome = true ∧
        ∃ t', get_task (db_add_subtask db tid newId now title desc).2 tid =
            some t' ∧
          t'.status = .IN_PROGRESS ∧ t'.completed_at = none) ∧
    (∀ (db : List Task) (tid sid : String) (p : SubTaskPatch)
        (now : DateTime) (t : Task) (q : SubTask × List SubTask),
        get_task db tid = some t → t.status = .COMPLETED →
        updateSubtaskAux p sid t.subtasks = some q →
        q.1.status ≠ .COMPLETED →
        (update_subtask db tid sid p now).1 = some q.1 ∧
        ∃ t', get_task (update_subtask db tid sid p now).2 tid = some t' ∧
          t'.status = .IN_PROGRESS ∧ t'.completed_at = none) := by
  have hid_of : ∀ {db : List Task} {tid : String} {t : Task},
      get_task db tid = some t → t.id = tid := fun h => get_task_id h
  constructor
  · intro db tid newId now title desc t hget hstatus
    have hid : t.id = tid := hid_of hget
    simp only [db_add_subtask, hget, Task.add_subtask, hstatus, reduceIte]
    refine ⟨by trivial, _, get_task_update_first_const hid hget, rfl, rfl⟩
  · intro db tid sid p now t q hget hstatus haux hq
    have hid : t.id = tid := hid_of hget
    have hmem : q.1 ∈ q.2 := updateSubtaskAux_mem haux
    have hany : (q.2.any fun s => decide ¬s.status = TaskStatus.COMPLETED) = true :=
      List.any_eq_true.mpr ⟨q.1, hmem, by simp [hq]⟩
    simp only [update_subtask, hget, haux, hstatus, hany, and_true, and_self,
      reduceIte]
    refine ⟨by trivial, _, get_task_update_first_const hid hget, rfl, rfl⟩

/-- Sample COMPLETED task for the self-healing witness. -/
def wTaskC : Task :=
  { id := "tc", title := "done task", description := "", order := 0,
    status := .COMPLETED, mode := .PLANNING,
    knowledge := .KNOWN_WHAT_KNOWN_HOW, subtasks := [wSub1],
    exploration_notes := [], created_at := 0, updated_at := 0,
    completed_at := some 4, priority := 0, tags := [], conclusion := "" }

/-- A patch reverting a subtask to PENDING. -/
def wPatchPending : SubTaskPatch := { status := some .PENDING }

/-- Witness for C2 at a concrete COMPLETED task. -/
theorem completed_task_self_healing_witness :
    (get_task [wTaskC] "tc" = some wTaskC ∧ wTaskC.status = .COMPLETED ∧
      ((db_add_subtask [wTaskC] "tc" "s9" 8 "more" "").1.isSome = true ∧
        ∃ t', get_task (db_add_subtask [wTaskC] "tc" "s9" 8 "more" "").2 "tc" =
            some t' ∧
          t'.status = .IN_PROGRESS ∧ t'.completed_at = none)) ∧
    (updateSubtaskAux wPatchPending "s1" wTaskC.subtasks =
        some ({ wSub1 with status := .PENDING },
              [{ wSub1 with status := .PENDING }]) ∧
      ((update_subtask [wTaskC] "tc" "s1" wPatchPending 8).1 =
          some { wSub1 with status := .PENDING } ∧
        ∃ t', get_task (update_subtask [wTaskC] "tc" "s1" wPatchPending 8).2
            "tc" = some t' ∧
          t'.status = .IN_PROGRESS ∧ t'.completed_at = none)) :=
  ⟨⟨by decide, by decide,
     completed_task_self_healing.1 [wTaskC] "tc" "s9" 8 "more" "" wTaskC
       (by decide) (by decide)⟩,
   ⟨by decide,
     completed_task_self_healing.2 [wTaskC] "tc" "s1" wPatchPending 8 wTaskC
       ({ wSub1 with status := .PENDING }, [{ wSub1 with status := .PENDING }])
       (by decide) (by decide) (by decide) (by decide)⟩⟩

/-! ### Round-trip lemmas for serialization -/

theorem ok_bind {α β : Type} (a : α) (f : α → Except PyErr β) :
    (Except.ok a >>= f) = f a := rfl

theorem pure_eq_ok {α : Type} (a : α) : (pure a : Except PyErr α) = .ok a := rfl

theorem asStr_jstr (s : String) : (JValue.jstr s).asStr = .ok s := rfl

theorem asInt_jnum (n : Int) : (JValue.jnum n).asInt = .ok n := rfl

theorem asBool_jbool (b : Bool) : (JValue.jbool b).asBool = .ok b := rfl

theorem asArr_jarr (xs : List JValue) : (JValue.jarr xs).asArr = .ok xs := rfl

theorem fromisoformat_jtime (t : DateTime) :
    fromisoformat (.jtime t) = .ok t := rfl

theorem status_fromName_name (s : TaskStatus) :
    enumByName TaskStatus.fromName s.name = .ok s := by cases s <;> rfl

theorem mode_fromName_name (m : TaskMode) :
    enumByName TaskMode.fromName m.name = .ok m := by cases m <;> rfl

theorem knowledge_fromName_name (k : TaskKnowledge) :
    enumByName TaskKnowledge.fromName k.name = .ok k := by cases k <;> rfl

theorem parse_note_roundtrip (n : ExplorationNote) :
    parse_note (note_to_dict n) = .ok n := by cases n; rfl

theorem parse_subtask_roundtrip (st : SubTask) :
    parse_subtask (subtask_to_dict st) = .ok st := by
  obtain ⟨id, title, description, status, order, created_at, completed_at,
    notes⟩ := st
  cases status <;> cases completed_at <;> rfl

theorem parseList_map_sem {α β : Type} (g : JValue → Except PyErr β)
    (f : α → JValue) (h : α → β) (hfg : ∀ x, g (f x) = .ok (h x)) :
    ∀ l : List α, parseList g (l.map f) = .ok (l.map h) := by
  intro l
  induction l with
  | nil => rfl
  | cons x xs ih =>
    simp only [List.map_cons, parseList, hfg x, ih, ok_bind, pure_eq_ok]

theorem parseList_map {α : Type} (g : JValue → Except PyErr α)
    (f : α → JValue) (hfg : ∀ x, g (f x) = .ok x) :
    ∀ l : List α, parseList g (l.map f) = .ok l := by
  intro l
  have := parseList_map_sem g f id (by simpa using hfg) l
  simpa using this

theorem task_dict_id (t : Task) :
    (task_to_dict t).getItem "id" = .ok (.jstr t.id) := rfl

theorem task_dict_title (t : Task) :
    (task_to_dict t).getItem "title" = .ok (.jstr t.title) := rfl

theorem task_dict_description (t : Task) :
    (task_to_dict t).getD "description" (.jstr "") =
      .ok (.jstr t.description) := rfl

theorem task_dict_order (t : Task) (d : Int) :
    (task_to_dict t).getD "order" (.jnum d) = .ok (.jnum t.order) := rfl

theorem task_dict_status (t : Task) :
    (task_to_dict t).getItem "status" = .ok (.jstr t.status.name) := rfl

theorem task_dict_mode (t : Task) :
    (task_to_dict t).getItem "mode" = .ok (.jstr t.mode.name) := rfl

theorem task_dict_knowledge (t : Task) :
    (task_to_dict t).getItem "knowledge" = .ok (.jstr t.knowledge.name) := rfl

theorem task_dict_created (t : Task) :
    (task_to_dict t).getItem "created_at" = .ok (.jtime t.created_at) := rfl

theorem task_dict_updated (t : Task) :
    (task_to_dict t).getItem "updated_at" = .ok (.jtime t.updated_at) := rfl

theorem task_dict_completed (t : Task) :
    readOptTime (task_to_dict t) "completed_at" = .ok t.completed_at := by
  obtain ⟨id, title, description, order, status, mode, knowledge, subtasks,
    exploration_notes, created_at, updated_at, completed_at, priority, tags,
    conclusion⟩ := t
  cases completed_at <;> rfl

theorem task_dict_priority (t : Task) :
    (task_to_dict t).getD "priority" (.jnum 0) = .ok (.jnum t.priority) := rfl

theorem task_dict_tags (t : Task) :
    (task_to_dict t).getD "tags" (.jarr []) =
      .ok (.jarr (t.tags.map JValue.jstr)) := rfl

theorem task_dict_conclusion (t : Task) :
    (task_to_dict t).getD "conclusion" (.jstr "") =
      .ok (.jstr t.conclusion) := rfl

theorem task_dict_subtasks (t : Task) :
    (task_to_dict t).getD "subtasks" (.jarr []) =
      .ok (.jarr (t.subtasks.map subtask_to_dict)) := rfl

theorem task_dict_notes (t : Task) :
    (task_to_dict t).getD "exploration_notes" (.jarr []) =
      .ok (.jarr (t.exploration_notes.map note_to_dict)) := rfl

theorem task_dict_history (t : Task) :
    (task_to_dict t).getOpt "exploration_history" = .ok none := rfl

theorem dict_to_task_roundtrip (t : Task) (d : Int) :
    dict_to_task (task_to_dict t) d = .ok t := by
  have htags :=
    parseList_map JValue.asStr JValue.jstr (fun s => rfl) t.tags
  have hsubs :=
    parseList_map parse_subtask subtask_to_dict parse_subtask_roundtrip
      t.subtasks
  have hnotes :=
    parseList_map parse_note note_to_dict parse_note_roundtrip
      t.exploration_notes
  simp only [dict_to_task, task_dict_id, task_dict_title,
    task_dict_description, task_dict_order, task_dict_status, task_dict_mode,
    task_dict_knowledge, task_dict_created, task_dict_updated,
    task_dict_completed, task_dict_priority, task_dict_tags,
    task_dict_conclusion, task_dict_subtasks, task_dict_notes,
    task_dict_history, ok_bind, pure_eq_ok, asStr_jstr, asInt_jnum,
    asArr_jarr, fromisoformat_jtime, status_fromName_name, mode_fromName_name,
    knowledge_fromName_name, htags, hsubs, hnotes, List.append_nil]

/-- C1: saving a task collection and loading the resulting document
reproduces every task, subtask and note field exactly. -/
theorem save_load_roundtrip :
    ∀ (tasks : List Task) (now : DateTime),
      load (.json (save_doc tasks now)) = .ok tasks := by
  have haux : ∀ (tasks : List Task) (i : Nat),
      loadTasksAux i (tasks.map task_to_dict) = .ok tasks := by
    intro tasks
    induction tasks with
    | nil => intro i; rfl
    | cons t ts ih =>
      intro i
      simp only [List.map_cons, loadTasksAux, dict_to_task_roundtrip, ih,
        ok_bind, pure_eq_ok]
  intro tasks now
  have hdoc : (save_doc tasks now).getD "tasks" (.jarr []) =
      .ok (.jarr (tasks.map task_to_dict)) := rfl
  simp only [load, hdoc, ok_bind, asArr_jarr, haux]

/-! ### Fail-soft loading (C5) and legacy-field migration (C6) -/

/-- A well-formed JSON document whose single task entry carries the unknown
status name "DONE". -/
def badStatusDoc : JValue :=
  .jobj [("tasks", .jarr [.jobj [("id", .jstr "t1"), ("title", .jstr "x"),
    ("status", .jstr "DONE")]])]

/-- Counterexample to C5 as stated: on well-formed JSON whose task entry
carries an unknown status enum name, `load` propagates the `KeyError`
instead of returning the empty collection. -/
theorem load_raises_on_unknown_status :
    load (.json badStatusDoc) = .error (.keyError "DONE") ∧
    load (.json badStatusDoc) ≠ .ok [] := by
  refine ⟨rfl, fun h => ?_⟩
  have h2 : (Except.error (PyErr.keyError "DONE") : Except PyErr (List Task)) =
      .ok [] := h
  exact Except.noConfusion h2

/-- C5 (amended): `load` fails soft — returning the empty collection —
exactly for a missing file, an unreadable file (`IOError`), and a
syntactically invalid document (`json.JSONDecodeError`); conversion errors
inside a well-formed document are not caught. -/
theorem load_fail_soft :
    load .missing = .ok [] ∧ load .ioError = .ok [] ∧ load .badJson = .ok [] :=
  ⟨rfl, rfl, rfl⟩

/-- A minimal well-formed task dictionary with no notes. -/
def minTaskDict : JValue :=
  .jobj [("id", .jstr "t1"), ("title", .jstr "m"),
         ("status", .jstr "PENDING"), ("mode", .jstr "PLANNING"),
         ("knowledge", .jstr "UNKNOWN_WHAT"), ("created_at", .jtime 1),
         ("updated_at", .jtime 2)]

/-- The task `minTaskDict` loads to (at position 0). -/
def minTask : Task :=
  { id := "t1", title := "m", description := "", order := 0,
    status := .PENDING, mode := .PLANNING, knowledge := .UNKNOWN_WHAT,
    subtasks := [], exploration_notes := [], created_at := 1, updated_at := 2,
    completed_at := none, priority := 0, tags := [], conclusion := "" }

/-- A document carrying a top-level (root) `exploration_history` array next
to the task list. -/
def topHistoryDoc : JValue :=
  .jobj [("tasks", .jarr [minTaskDict]),
         ("exploration_history", .jarr [.jobj [("id", .jstr "h1"),
           ("content", .jstr "old"), ("created_at", .jtime 0)]])]

/-- Counterexample to C6 as stated: a top-level `exploration_history` array
is silently ignored — the document loads, but the history entry is folded
into no task's `exploration_notes` (the only task has none). -/
theorem top_level_history_not_folded :
    load (.json topHistoryDoc) = .ok [minTask] ∧
    minTask.exploration_notes = [] :=
  ⟨rfl, rfl⟩

/-- Appends one field to a JSON object (used to build legacy documents). -/
def JValue.addField : JValue → String × JValue → JValue
  | .jobj fs, kv => .jobj (fs ++ [kv])
  | v, _ => v

/-- A legacy history entry for note `n`; the boolean says whether the
optional `updated_at` field is present. -/
def legacy_note_dict : ExplorationNote × Bool → JValue
  | (n, withUpd) =>
    .jobj ([("id", .jstr n.id), ("content", .jstr n.content),
            ("insight", .jstr n.insight), ("created_at", .jtime n.created_at)]
      ++ (if withUpd then [("updated_at", .jtime n.updated_at)] else [])
      ++ [("is_breakthrough", .jbool n.is_breakthrough)])

/-- The note a legacy history entry deserializes to: a missing `updated_at`
defaults to the entry's own `created_at`. -/
def legacy_note_sem : ExplorationNote × Bool → ExplorationNote
  | (n, withUpd) => if withUpd then n else { n with updated_at := n.created_at }

theorem parse_legacy_note (p : ExplorationNote × Bool) :
    parse_note (legacy_note_dict p) = .ok (legacy_note_sem p) := by
  obtain ⟨n, b⟩ := p
  cases n
  cases b <;> rfl

theorem hist_dict_id (t : Task) (hv : JValue) :
    ((task_to_dict t).addField ("exploration_history", hv)).getItem "id" =
      .ok (.jstr t.id) := rfl

theorem hist_dict_title (t : Task) (hv : JValue) :
    ((task_to_dict t).addField ("exploration_history", hv)).getItem "title" =
      .ok (.jstr t.title) := rfl

theorem hist_dict_description (t : Task) (hv : JValue) :
    ((task_to_dict t).addField ("exploration_history", hv)).getD
      "description" (.jstr "") = .ok (.jstr t.description) := rfl

theorem hist_dict_order (t : Task) (hv : JValue) (d : Int) :
    ((task_to_dict t).addField ("exploration_history", hv)).getD "order"
      (.jnum d) = .ok (.jnum t.order) := rfl

theorem hist_dict_status (t : Task) (hv : JValue) :
    ((task_to_dict t).addField ("exploration_history", hv)).getItem "status" =
      .ok (.jstr t.status.name) := rfl

theorem hist_dict_mode (t : Task) (hv : JValue) :
    ((task_to_dict t).addField ("exploration_history", hv)).getItem "mode" =
      .ok (.jstr t.mode.name) := rfl

theorem hist_dict_knowledge (t : Task) (hv : JValue) :
    ((task_to_dict t).addField ("exploration_history", hv)).getItem
      "knowledge" = .ok (.jstr t.knowledge.name) := rfl

theorem hist_dict_created (t : Task) (hv : JValue) :
    ((task_to_dict t).addField ("exploration_history", hv)).getItem
      "created_at" = .ok (.jtime t.created_at) := rfl

theorem hist_dict_updated (t : Task) (hv : JValue) :
    ((task_to_dict t).addField ("exploration_history", hv)).getItem
      "updated_at" = .ok (.jtime t.updated_at) := rfl

theorem hist_dict_completed (t : Task) (hv : JValue) :
    readOptTime ((task_to_dict t).addField ("exploration_history", hv))
      "completed_at" = .ok t.completed_at := by
  obtain ⟨id, title, description, order, status, mode, knowledge, subtasks,
    exploration_notes, created_at, updated_at, completed_at, priority, tags,
    conclusion⟩ := t
  cases completed_at <;> rfl

theorem hist_dict_priority (t : Task) (hv : JValue) :
    ((task_to_dict t).addField ("exploration_history", hv)).getD "priority"
      (.jnum 0) = .ok (.jnum t.priority) := rfl

theorem hist_dict_tags (t : Task) (hv : JValue) :
    ((task_to_dict t).addField ("exploration_history", hv)).getD "tags"
      (.jarr []) = .ok (.jarr (t.tags.map JValue.jstr)) := rfl

theorem hist_dict_conclusion (t : Task) (hv : JValue) :
    ((task_to_dict t).addField ("exploration_history", hv)).getD "conclusion"
      (.jstr "") = .ok (.jstr t.conclusion) := rfl

theorem hist_dict_subtasks (t : Task) (hv : JValue) :
    ((task_to_dict t).addField ("exploration_history", hv)).getD "subtasks"
      (.jarr []) = .ok (.jarr (t.subtasks.map subtask_to_dict)) := rfl

theorem hist_dict_notes (t : Task) (hv : JValue) :
    ((task_to_dict t).addField ("exploration_history", hv)).getD
      "exploration_notes" (.jarr []) =
      .ok (.jarr (t.exploration_notes.map note_to_dict)) := rfl

theorem hist_dict_history (t : Task) (hv : JValue) :
    ((task_to_dict t).addField ("exploration_history", hv)).getOpt
      "exploration_history" = .ok (some hv) := rfl

/-- C6 (amended): a per-task `exploration_history` array is accepted on
load and folded into the task's in-memory `exploration_notes`, appended
after the directly-stored notes in its original order, each entry keeping
its own `created_at` and defaulting a missing `updated_at` to that entry's
`created_at`; a top-level (root) `exploration_history` array is tolerated
but ignored. -/
theorem legacy_history_migration :
    (∀ (t : Task) (hist : List (ExplorationNote × Bool)),
        dict_to_task
          ((task_to_dict t).addField
            ("exploration_history", .jarr (hist.map legacy_note_dict))) 0 =
          .ok { t with exploration_notes :=
                  t.exploration_notes ++ hist.map legacy_note_sem }) ∧
    (∀ (ts : List JValue) (hv : JValue),
        load (.json (.jobj [("tasks", .jarr ts),
            ("exploration_history", hv)])) =
          load (.json (.jobj [("tasks", .jarr ts)]))) := by
  constructor
  · intro t hist
    have htags :=
      parseList_map JValue.asStr JValue.jstr (fun s => rfl) t.tags
    have hsubs :=
      parseList_map parse_subtask subtask_to_dict parse_subtask_roundtrip
        t.subtasks
    have hnotes :=
      parseList_map parse_note note_to_dict parse_note_roundtrip
        t.exploration_notes
    cases hist with
    | nil =>
      simp only [dict_to_task, hist_dict_id, hist_dict_title,
        hist_dict_description, hist_dict_order, hist_dict_status,
        hist_dict_mode, hist_dict_knowledge, hist_dict_created,
        hist_dict_updated, hist_dict_completed, hist_dict_priority,
        hist_dict_tags, hist_dict_conclusion, hist_dict_subtasks,
        hist_dict_notes, hist_dict_history, ok_bind, pure_eq_ok, asStr_jstr,
        asInt_jnum, asArr_jarr, fromisoformat_jtime, status_fromName_name,
        mode_fromName_name, knowledge_fromName_name, htags, hsubs, hnotes,
        List.map_nil, JValue.truthy, List.append_nil, List.isEmpty_nil]
      simp
    | cons x rest =>
      have hhist := parseList_map_sem parse_note legacy_note_dict
        legacy_note_sem parse_legacy_note (x :: rest)
      simp only [List.map_cons] at hhist
      simp only [dict_to_task, hist_dict_id, hist_dict_title,
        hist_dict_description, hist_dict_order, hist_dict_status,
        hist_dict_mode, hist_dict_knowledge, hist_dict_created,
        hist_dict_updated, hist_dict_completed, hist_dict_priority,
        hist_dict_tags, hist_dict_conclusion, hist_dict_subtasks,
        hist_dict_notes, hist_dict_history, ok_bind, pure_eq_ok, asStr_jstr,
        asInt_jnum, asArr_jarr, fromisoformat_jtime, status_fromName_name,
        mode_fromName_name, knowledge_fromName_name, htags, hsubs, hnotes,
        hhist, List.map_cons, JValue.truthy, List.isEmpty_cons]
      simp
  · intro ts hv
    rfl


/-! ### Merge properties (C3 and C9) -/

instance : IsTotal ExplorationNote noteLe :=
  ⟨fun a b => Nat.le_total a.created_at b.created_at⟩

instance : IsTrans ExplorationNote noteLe :=
  ⟨fun _ _ _ hab hbc => Nat.le_trans hab hbc⟩

theorem strList_contains_iff {l : List String} {a : String} :
    l.contains a = true ↔ a ∈ l := by
  simp [List.contains_iff_exists_mem_beq]

/-- The collected, sorted note pool a merge works with. -/
def mergePool (db : List Task) (src : List String) : List ExplorationNote :=
  List.insertionSort noteLe
    ((((src.map (get_task db)).filterMap id).map Task.exploration_notes).flatten)

theorem merge_unfold_existing {db : List Task} {src : List String}
    (tgtId newId2 : String) (now2 : DateTime) {target : Task}
    (h1 : src.isEmpty = false)
    (h2 : (src.map (get_task db)).all Option.isSome = true)
    (htgt : get_task db tgtId = some target) :
    merge_tasks_exploration_notes db src tgtId "" newId2 now2 =
      (update_first_task (fun _ => mergeIntoTarget target (mergePool db src) now2)
        db tgtId, .ok) := by
  have hEmpty : ("" : String).isEmpty = true := rfl
  simp only [merge_tasks_exploration_notes, h1, h2, htgt, Bool.false_eq_true,
    reduceIte, if_true, hEmpty, mergePool]

theorem merge_unfold_created {db : List Task} {src : List String}
    (tgtId nt newId : String) (now : DateTime)
    (h1 : src.isEmpty = false)
    (h2 : (src.map (get_task db)).all Option.isSome = true)
    (hnt : nt.isEmpty = false) :
    merge_tasks_exploration_notes db src tgtId nt newId now =
      (db ++ [mergeIntoTarget
          (create_task db newId now nt "" .EXPLORING .KNOWN_WHAT_UNKNOWN_HOW 0).1
          (mergePool db src) now], .created newId) := by
  simp only [merge_tasks_exploration_notes, h1, h2, hnt, Bool.false_eq_true,
    reduceIte, if_true, mergePool]

theorem mergeIntoTarget_id (target : Task) (sorted : List ExplorationNote)
    (now : DateTime) : (mergeIntoTarget target sorted now).id = target.id := rfl

/-- Every collected note's id ends up among the target's note ids. -/
theorem mergeIntoTarget_id_mem (target : Task) (sorted : List ExplorationNote)
    (now : DateTime) :
    ∀ note ∈ sorted, note.id ∈
      (mergeIntoTarget target sorted now).exploration_notes.map
        (fun n => n.id) := by
  intro note hn
  show note.id ∈ (target.exploration_notes ++ _).map (fun n => n.id)
  rw [List.map_append]
  by_cases hm : note.id ∈ target.exploration_notes.map (fun n => n.id)
  · exact List.mem_append_left _ hm
  · refine List.mem_append_right _ ?_
    refine List.mem_map_of_mem (fun n : ExplorationNote => n.id) ?_
    refine List.mem_filter.mpr ⟨hn, ?_⟩
    simp [strList_contains_iff, hm]

/-- If the target already holds every collected note's id, nothing is
appended: only `updated_at` moves. -/
theorem mergeIntoTarget_skip_all {target : Task}
    {sorted : List ExplorationNote} (now2 : DateTime)
    (hcover : ∀ note ∈ sorted,
      note.id ∈ target.exploration_notes.map (fun n => n.id)) :
    mergeIntoTarget target sorted now2 = { target with updated_at := now2 } := by
  have hfilter : sorted.filter (fun n =>
      ¬ (target.exploration_notes.map (fun n => n.id)).contains n.id) = [] := by
    rw [List.filter_eq_nil_iff]
    intro a ha
    have hcont : (target.exploration_notes.map (fun n => n.id)).contains a.id
        = true := strList_contains_iff.mpr (hcover a ha)
    rw [hcont]
    simp
  simp only [mergeIntoTarget]
  rw [hfilter, List.append_nil]

theorem mem_update_first_const {db : List Task} {tid : String} {t : Task}
    (h : get_task db tid = some t) (c : Task) :
    c ∈ update_first_task (fun _ => c) db tid := by
  induction db with
  | nil => simp [get_task] at h
  | cons x xs ih =>
    by_cases hx : x.id = tid
    · simp [update_first_task, hx]
    · simp only [get_task, hx, reduceIte] at h
      simp [update_first_task, hx, ih h]

/-- Re-merging the same sources into a target that already holds the whole
pool changes only the target's `updated_at`. -/
theorem merge_again_into_target {db : List Task} {src : List String}
    (c : Task) (newId newId2 : String) (now2 : DateTime)
    (h1 : src.isEmpty = false)
    (hfound : ∀ sid ∈ src, (get_task db sid).isSome = true)
    (hfresh : ∀ t ∈ db, t.id ≠ newId)
    (hcid : c.id = newId)
    (hcnotes : c.exploration_notes = mergePool db src) :
    merge_tasks_exploration_notes (db ++ [c]) src newId "" newId2 now2 =
      (db ++ [{ c with updated_at := now2 }], .ok) := by
  have hmap : src.map (get_task (db ++ [c])) = src.map (get_task db) :=
    List.map_congr_left (fun sid hsid => by
      obtain ⟨s, hs⟩ := Option.isSome_iff_exists.mp (hfound sid hsid)
      rw [hs, get_task_append_left hs])
  have h2' : (src.map (get_task (db ++ [c]))).all Option.isSome = true := by
    rw [hmap, List.all_eq_true]
    intro o ho
    obtain ⟨sid, hsid, rfl⟩ := List.mem_map.mp ho
    exact hfound sid hsid
  have htgt : get_task (db ++ [c]) newId = some c := by
    rw [get_task_append_of_none (get_task_eq_none hfresh)]
    simp [get_task, hcid]
  have hpool : mergePool (db ++ [c]) src = mergePool db src := by
    simp only [mergePool, hmap]
  have hcover : ∀ note ∈ mergePool (db ++ [c]) src,
      note.id ∈ c.exploration_notes.map (fun n => n.id) := by
    intro n hn
    rw [hcnotes, ← hpool]
    exact List.mem_map_of_mem (fun n : ExplorationNote => n.id) hn
  have hskip := mergeIntoTarget_skip_all now2 hcover
  rw [merge_unfold_existing newId newId2 now2 h1 h2' htgt]
  simp only [hskip]
  rw [update_first_task_append_of_ne _ hfresh]
  simp [update_first_task, hcid]

/-- C3: merging source tasks (with out-of-order note timestamps) into a
freshly created target yields a target whose notes are sorted ascending by
`created_at`, and re-merging the same source ids into that target adds no
notes (ids already present are skipped) — only `updated_at` moves. -/
theorem merge_fresh_target_sorted_idempotent
    (db : List Task) (src : List String) (tid nt newId newId2 : String)
    (now now2 : DateTime) (hsrc : src ≠ [])
    (hfound : ∀ sid ∈ src, (get_task db sid).isSome = true)
    (hnt : nt ≠ "") (hfresh : ∀ t ∈ db, t.id ≠ newId) :
    ∃ c, merge_tasks_exploration_notes db src tid nt newId now =
        (db ++ [c], .created newId) ∧
      c.id = newId ∧
      c.exploration_notes.Pairwise (fun a b => a.created_at ≤ b.created_at) ∧
      merge_tasks_exploration_notes (db ++ [c]) src newId "" newId2 now2 =
        (db ++ [{ c with updated_at := now2 }], .ok) := by
  have h1 : src.isEmpty = false := by
    cases src with
    | nil => exact absurd rfl hsrc
    | cons a l => rfl
  have h2 : (src.map (get_task db)).all Option.isSome = true := by
    rw [List.all_eq_true]
    intro o ho
    obtain ⟨sid, hsid, rfl⟩ := List.mem_map.mp ho
    exact hfound sid hsid
  have hnt' : nt.isEmpty = false := by
    cases hh : nt.isEmpty
    · rfl
    · exact absurd ((String.isEmpty_iff nt).mp hh) hnt
  have hcnotes : (mergeIntoTarget
      (create_task db newId now nt "" .EXPLORING .KNOWN_WHAT_UNKNOWN_HOW 0).1
      (mergePool db src) now).exploration_notes = mergePool db src := by
    show ([] : List ExplorationNote) ++ (mergePool db src).filter
        (fun n => ¬ (([] : List ExplorationNote).map (fun n => n.id)).contains
          n.id) = mergePool db src
    rw [List.nil_append]
    apply List.filter_eq_self.mpr
    intro a _
    rfl
  refine ⟨mergeIntoTarget
      (create_task db newId now nt "" .EXPLORING .KNOWN_WHAT_UNKNOWN_HOW 0).1
      (mergePool db src) now,
    merge_unfold_created tid nt newId now h1 h2 hnt', rfl, ?_, ?_⟩
  · rw [hcnotes]
    simp only [mergePool]
    exact List.sorted_insertionSort noteLe _
  · exact merge_again_into_target _ newId newId2 now2 h1 hfound hfresh rfl
      hcnotes

/-- A note timestamped later, held by the first source task. -/
def mNoteLate : ExplorationNote :=
  { id := "nl", content := "later finding", insight := "", created_at := 9,
    updated_at := 9, is_breakthrough := false }

/-- A note timestamped earlier, held by the second source task. -/
def mNoteEarly : ExplorationNote :=
  { id := "ne", content := "early finding", insight := "", created_at := 2,
    updated_at := 2, is_breakthrough := true }

/-- First merge source: holds the later note. -/
def mTaskA : Task :=
  { id := "a", title := "alpha", description := "", order := 0,
    status := .EXPLORING, mode := .EXPLORING,
    knowledge := .KNOWN_WHAT_UNKNOWN_HOW, subtasks := [],
    exploration_notes := [mNoteLate], created_at := 0, updated_at := 0,
    completed_at := none, priority := 0, tags := [], conclusion := "" }

/-- Second merge source: holds the earlier note. -/
def mTaskB : Task :=
  { id := "b", title := "beta", description := "", order := 1,
    status := .EXPLORING, mode := .EXPLORING,
    knowledge := .KNOWN_WHAT_UNKNOWN_HOW, subtasks := [],
    exploration_notes := [mNoteEarly], created_at := 0, updated_at := 0,
    completed_at := none, priority := 0, tags := [], conclusion := "" }

/-- Witness for C3: two sources with notes timestamped out of input order,
merged into a fresh task. -/
theorem merge_fresh_target_sorted_idempotent_witness :
    ((["a", "b"] : List String) ≠ [] ∧
      (∀ sid ∈ (["a", "b"] : List String),
        (get_task [mTaskA, mTaskB] sid).isSome = true) ∧
      ("Merged" : String) ≠ "" ∧
      (∀ t ∈ [mTaskA, mTaskB], t.id ≠ "fresh")) ∧
    (∃ c, merge_tasks_exploration_notes [mTaskA, mTaskB] ["a", "b"] "x"
          "Merged" "fresh" 20 = ([mTaskA, mTaskB] ++ [c], .created "fresh") ∧
      c.id = "fresh" ∧
      c.exploration_notes.Pairwise (fun a b => a.created_at ≤ b.created_at) ∧
      merge_tasks_exploration_notes ([mTaskA, mTaskB] ++ [c]) ["a", "b"]
          "fresh" "" "f2" 21 =
        ([mTaskA, mTaskB] ++ [{ c with updated_at := 21 }], .ok)) :=
  ⟨⟨by decide, by decide, by decide, by decide⟩,
    merge_fresh_target_sorted_idempotent [mTaskA, mTaskB] ["a", "b"] "x"
      "Merged" "fresh" "f2" 20 21 (by decide) (by decide) (by decide)
      (by decide)⟩

/-- C9 (amended): a successful merge never removes notes from source
tasks — every source task other than the target itself is left exactly as
it was (same task value, hence same `exploration_notes`), and every note of
every source task has its id present in the target's notes afterwards, so a
merged note belongs to both its source and the target. -/
theorem merge_preserves_sources (db : List Task) (src : List String)
    (tid nt newId : String) (now : DateTime) (db' : List Task) (r : MergeRes)
    (hm : merge_tasks_exploration_notes db src tid nt newId now = (db', r))
    (hr : r ≠ .failed) :
    ∃ tgt, tgt ∈ db' ∧
      tgt.id = (match r with | .created i => i | _ => tid) ∧
      (∀ sid ∈ src, ∀ s, get_task db sid = some s →
        (sid ≠ (match r with | .created i => i | _ => tid) →
          get_task db' sid = some s) ∧
        ∀ note ∈ s.exploration_notes,
          note.id ∈ tgt.exploration_notes.map (fun n => n.id)) := by
  by_cases h1 : src.isEmpty
  · exfalso
    simp only [merge_tasks_exploration_notes, h1, if_true] at hm
    exact hr (((Prod.mk.injEq _ _ _ _).mp hm).2.symm)
  · rw [Bool.not_eq_true] at h1
    by_cases h2 : (src.map (get_task db)).all Option.isSome
    · have hnotepool : ∀ sid ∈ src, ∀ s, get_task db sid = some s →
          ∀ note ∈ s.exploration_notes, note ∈ mergePool db src := by
        intro sid hsid s hs note hnote
        rw [mergePool, List.mem_insertionSort, List.mem_flatten]
        refine ⟨s.exploration_notes, ?_, hnote⟩
        refine List.mem_map_of_mem Task.exploration_notes ?_
        exact List.mem_filterMap.mpr
          ⟨some s, List.mem_map.mpr ⟨sid, hsid, hs⟩, rfl⟩
      by_cases h3 : nt.isEmpty
      · have hnt0 : nt = "" := (String.isEmpty_iff nt).mp h3
        subst hnt0
        cases hg : get_task db tid with
        | none =>
          exfalso
          have hEmpty : ("" : String).isEmpty = true := rfl
          simp only [merge_tasks_exploration_notes, h1, h2, hg, hEmpty,
            Bool.false_eq_true, reduceIte, if_true] at hm
          exact hr (((Prod.mk.injEq _ _ _ _).mp hm).2.symm)
        | some target =>
          rw [merge_unfold_existing tid newId now h1 h2 hg] at hm
          have hdb' : db' = update_first_task
              (fun _ => mergeIntoTarget target (mergePool db src) now) db
              tid := by rw [← (Prod.mk.injEq _ _ _ _).mp hm |>.1]
          have hres : r = .ok := by rw [← (Prod.mk.injEq _ _ _ _).mp hm |>.2]
          subst hdb' hres
          refine ⟨mergeIntoTarget target (mergePool db src) now,
            mem_update_first_const hg _, ?_, ?_⟩
          · rw [mergeIntoTarget_id]
            exact get_task_id hg
          · intro sid hsid s hs
            constructor
            · intro hne
              rw [get_task_update_first_of_ne _ db tid sid
                ((mergeIntoTarget_id _ _ _).trans (get_task_id hg)) hne]
              exact hs
            · intro note hnote
              exact mergeIntoTarget_id_mem target (mergePool db src) now note
                (hnotepool sid hsid s hs note hnote)
      · rw [Bool.not_eq_true] at h3
        rw [merge_unfold_created tid nt newId now h1 h2 h3] at hm
        have hdb' : db' = db ++ [mergeIntoTarget
            (create_task db newId now nt "" .EXPLORING
              .KNOWN_WHAT_UNKNOWN_HOW 0).1 (mergePool db src) now] := by
          rw [← (Prod.mk.injEq _ _ _ _).mp hm |>.1]
        have hres : r = .created newId := by
          rw [← (Prod.mk.injEq _ _ _ _).mp hm |>.2]
        subst hdb' hres
        refine ⟨mergeIntoTarget
            (create_task db newId now nt "" .EXPLORING
              .KNOWN_WHAT_UNKNOWN_HOW 0).1 (mergePool db src) now,
          List.mem_append_right _ (List.mem_singleton.mpr rfl), rfl, ?_⟩
        intro sid hsid s hs
        constructor
        · intro _
          exact get_task_append_left hs _
        · intro note hnote
          exact mergeIntoTarget_id_mem _ (mergePool db src) now note
            (hnotepool sid hsid s hs note hnote)
    · exfalso
      rw [Bool.not_eq_true] at h2
      simp only [merge_tasks_exploration_notes, h1, h2, Bool.false_eq_true,
        reduceIte] at hm
      exact hr (((Prod.mk.injEq _ _ _ _).mp hm).2.symm)

/-- The merged target of the concrete C9 merge. -/
def c9Target : Task :=
  { mTaskB with exploration_notes := [mNoteEarly, mNoteLate], updated_at := 9 }

/-- Counterexample to C9 as stated: when the target task is itself one of
the sources (existing-target merge), the merge appends the other sources'
notes to it, so that source task's `exploration_notes` is not what it was
before the call. -/
theorem merge_mutates_source_counterexample :
    (merge_tasks_exploration_notes [mTaskA, mTaskB] ["a", "b"] "b" "" "z"
        9).2 = .ok ∧
    get_task [mTaskA, mTaskB] "b" = some mTaskB ∧
    get_task (merge_tasks_exploration_notes [mTaskA, mTaskB] ["a", "b"] "b"
        "" "z" 9).1 "b" = some c9Target ∧
    mTaskB.exploration_notes ≠ [mNoteEarly, mNoteLate] := by
  refine ⟨rfl, rfl, rfl, by decide⟩

/-- Witness for the amended C9 at a concrete merge. -/
theorem merge_preserves_sources_witness :
    (merge_tasks_exploration_notes [mTaskA, mTaskB] ["a", "b"] "b" "" "z" 9 =
        ([mTaskA, c9Target], .ok) ∧ (MergeRes.ok ≠ .failed)) ∧
    (∃ tgt, tgt ∈ [mTaskA, c9Target] ∧
      tgt.id = "b" ∧
      (∀ sid ∈ (["a", "b"] : List String), ∀ s,
        get_task [mTaskA, mTaskB] sid = some s →
        (sid ≠ "b" → get_task [mTaskA, c9Target] sid = some s) ∧
        ∀ note ∈ s.exploration_notes,
          note.id ∈ tgt.exploration_notes.map (fun n => n.id))) :=
  ⟨⟨by decide, by decide⟩,
    merge_preserves_sources [mTaskA, mTaskB] ["a", "b"] "b" "" "z" 9
      [mTaskA, c9Target] .ok (by decide) (by decide)⟩

/-! ### Subtask reordering (C4) -/

instance : IsTotal SubTask subLe := ⟨fun a b => Int.le_total a.order b.order⟩

instance : IsTrans SubTask subLe :=
  ⟨fun _ _ _ hab hbc => Int.le_trans hab hbc⟩

/-- A subtask list whose order fields are exactly `0..N-1` in list order is
sorted for the move-subtask comparison. -/
theorem sorted_of_orders_range {sts : List SubTask}
    (h : sts.map (fun s => s.order) =
      (List.range sts.length).map Int.ofNat) :
    sts.Pairwise subLe := by
  have h1 : (List.range sts.length).Pairwise (· < ·) :=
    List.pairwise_lt_range _
  have h2 : ((List.range sts.length).map Int.ofNat).Pairwise
      (fun a b : Int => a < b) := by
    rw [List.pairwise_map]
    exact h1.imp (fun hab => Int.ofNat_lt.mpr hab)
  rw [← h, List.pairwise_map] at h2
  exact h2.imp (fun hab => le_of_lt hab)

/-- `findIdx?` finds exactly the position whose element satisfies the
predicate when all earlier elements do not. -/
theorem findIdx?_eq_some_of {α : Type} (p : α → Bool) :
    ∀ (l : List α) (i : Nat) (a : α), l[i]? = some a → p a = true →
      (∀ j b, j < i → l[j]? = some b → p b = false) →
      l.findIdx? p = some i := by
  intro l
  induction l with
  | nil => intro i a h _ _; simp at h
  | cons x xs ih =>
    intro i a ha hpa hprev
    cases i with
    | zero =>
      simp only [List.getElem?_cons_zero, Option.some.injEq] at ha
      subst ha
      simp [List.findIdx?_cons, hpa]
    | succ n =>
      have hx : p x = false := hprev 0 x (Nat.succ_pos n) (List.getElem?_cons_zero)
      simp only [List.findIdx?_cons, hx, Bool.false_eq_true, reduceIte]
      rw [List.findIdx?_succ]
      rw [ih n a (by simpa using ha) hpa
        (fun j b hj hb => hprev (j + 1) b (Nat.succ_lt_succ hj)
          (by simpa using hb))]
      rfl

/-- Two sorted lists that are permutations of each other and have distinct
order keys are equal. -/
theorem sorted_perm_nodup_orders_eq :
    ∀ {l₁ l₂ : List SubTask}, l₁.Perm l₂ →
      l₁.Pairwise subLe → l₂.Pairwise subLe →
      (l₁.map (fun s => s.order)).Nodup → l₁ = l₂ := by
  intro l₁
  induction l₁ with
  | nil =>
    intro l₂ hp _ _ _
    exact hp.nil_eq
  | cons a t₁ ih =>
    intro l₂ hp s₁ s₂ hnd
    cases l₂ with
    | nil => simpa using hp.length_eq
    | cons b t₂ =>
      by_cases hab : a = b
      · subst hab
        have ht := hp.cons_inv
        rw [List.map_cons, List.nodup_cons] at hnd
        rw [ih ht s₁.of_cons s₂.of_cons hnd.2]
      · exfalso
        have hamem : a ∈ b :: t₂ := hp.mem_iff.mp (List.mem_cons_self a t₁)
        have hat₂ : a ∈ t₂ := by
          rcases List.mem_cons.mp hamem with h | h
          · exact absurd h hab
          · exact h
        have hbmem : b ∈ a :: t₁ := hp.mem_iff.mpr (List.mem_cons_self b t₂)
        have hbt₁ : b ∈ t₁ := by
          rcases List.mem_cons.mp hbmem with h | h
          · exact absurd h.symm hab
          · exact h
        have h₁ : a.order ≤ b.order := List.rel_of_pairwise_cons s₁ hbt₁
        have h₂ : b.order ≤ a.order := List.rel_of_pairwise_cons s₂ hat₂
        have heq : b.order = a.order := le_antisymm h₂ h₁
        rw [List.map_cons, List.nodup_cons] at hnd
        exact hnd.1 (heq ▸ List.mem_map_of_mem (fun s => s.order) hbt₁)

/-- Replacing an element and re-inserting it at the head is a permutation
of inserting the new value at the head. -/
theorem cons_get_set_perm {α : Type} :
    ∀ (xs : List α) (m : Nat) (hm : m < xs.length) (x : α),
      List.Perm ((xs.get ⟨m, hm⟩) :: xs.set m x) (x :: xs) := by
  intro xs
  induction xs with
  | nil => intro m hm; simp at hm
  | cons y ys ih =>
    intro m hm x
    cases m with
    | zero => exact List.Perm.swap x y ys
    | succ k =>
      have hk : k < ys.length := by simpa using hm
      have h₁ : List.Perm ((ys.get ⟨k, hk⟩) :: (y :: ys.set k x))
          (y :: ((ys.get ⟨k, hk⟩) :: ys.set k x)) := List.Perm.swap _ _ _
      have h₂ : List.Perm (y :: ((ys.get ⟨k, hk⟩) :: ys.set k x))
          (y :: (x :: ys)) := (ih k hk x).cons y
      have h₃ : List.Perm (y :: x :: ys) (x :: y :: ys) := List.Perm.swap _ _ _
      exact h₁.trans (h₂.trans h₃)

/-- Exchanging two elements of a list by a double `set` is a permutation. -/
theorem set_set_perm {α : Type} :
    ∀ (l : List α) (i j : Nat) (hi : i < l.length) (hj : j < l.length),
      List.Perm ((l.set i (l.get ⟨j, hj⟩)).set j (l.get ⟨i, hi⟩)) l := by
  intro l
  induction l with
  | nil => intro i j hi; simp at hi
  | cons x xs ih =>
    intro i j hi hj
    cases i with
    | zero =>
      cases j with
      | zero => simp
      | succ m =>
        have hm : m < xs.length := by simpa using hj
        exact cons_get_set_perm xs m hm x
    | succ k =>
      cases j with
      | zero =>
        have hk : k < xs.length := by simpa using hi
        exact cons_get_set_perm xs k hk x
      | succ m =>
        have hk : k < xs.length := by simpa using hi
        have hm : m < xs.length := by simpa using hj
        exact (ih k m hk hm).cons x

theorem reassignOrdersFrom_getElem? :
    ∀ (k : Nat) (l : List SubTask) (j : Nat),
      (reassignOrdersFrom k l)[j]? =
        l[j]?.map (fun s => { s with order := Int.ofNat (k + j) }) := by
  intro k l
  induction l generalizing k with
  | nil => intro j; simp [reassignOrdersFrom]
  | cons a t ihl =>
    intro j
    cases j with
    | zero => simp [reassignOrdersFrom]
    | succ m =>
      simp only [reassignOrdersFrom, List.getElem?_cons_succ, ihl (k + 1)]
      have : k + 1 + m = k + (m + 1) := by omega
      rw [this]

/-- Updating the order field with the value it already has is the
identity. -/
theorem setOrder_self {s : SubTask} {v : Int} (h : s.order = v) :
    { s with order := v } = s := by
  cases s
  simp only at h
  simp [h]

/-- Writing two adjacent positions of a list decomposes it around them. -/
theorem set_set_adjacent_decomp {l : List SubTask} {i : Nat} (hi0 : 0 < i)
    (hi : i < l.length) (a b : SubTask) :
    (l.set (i - 1) a).set i b =
      l.take (i - 1) ++ a :: b :: l.drop (i + 1) := by
  apply List.ext_getElem?
  intro k
  have hlen : (l.take (i - 1)).length = i - 1 := by
    rw [List.length_take]
    omega
  by_cases hk : k < i - 1
  · rw [List.getElem?_set_ne (by omega), List.getElem?_set_ne (by omega),
      List.getElem?_append_left (by omega), List.getElem?_take_of_lt hk]
  · by_cases hk1 : k = i - 1
    · subst hk1
      rw [List.getElem?_set_ne (by omega),
        List.getElem?_set_self (by omega),
        List.getElem?_append_right (by omega)]
      have h0 : (i - 1) - (l.take (i - 1)).length = 0 := by omega
      rw [h0, List.getElem?_cons_zero]
    · by_cases hk2 : k = i
      · subst hk2
        rw [List.getElem?_set_self (by simp; omega),
          List.getElem?_append_right (by omega)]
        have h1 : k - (l.take (k - 1)).length = 1 := by omega
        rw [h1]
        simp
      · by_cases hkn : k < l.length
        · rw [List.getElem?_set_ne (by omega), List.getElem?_set_ne (by omega),
            List.getElem?_append_right (by omega)]
          have : k - (l.take (i - 1)).length = (k - (i + 1)) + 1 + 1 := by
            omega
          rw [this]
          simp only [List.getElem?_cons_succ]
          rw [List.getElem?_drop]
          congr 1
          omega
        · rw [List.getElem?_set_ne (by omega), List.getElem?_set_ne (by omega),
            List.getElem?_eq_none (by omega), List.getElem?_eq_none]
          rw [List.length_append]
          simp only [hlen, List.length_cons, List.length_drop]
          omega

theorem orders_range_getElem {sts : List SubTask}
    (h : sts.map (fun s => s.order) =
      (List.range sts.length).map Int.ofNat) :
    ∀ k (hk : k < sts.length), sts[k].order = Int.ofNat k := by
  intro k hk
  have h1 : (sts.map (fun s => s.order))[k]? =
      ((List.range sts.length).map Int.ofNat)[k]? := by rw [h]
  rw [List.getElem?_map, List.getElem?_map, List.getElem?_range hk,
    List.getElem?_eq_getElem hk] at h1
  simpa using h1

theorem nodup_ids_getElem_ne {sts : List SubTask}
    (hids : (sts.map (fun s => s.id)).Nodup) :
    ∀ m m' (hm : m < sts.length) (hm' : m' < sts.length), m ≠ m' →
      sts[m].id ≠ sts[m'].id := by
  intro m m' hm hm' hmm' heq
  apply hmm'
  have hm2 : m < (sts.map (fun s => s.id)).length := by simpa using hm
  have hm2' : m' < (sts.map (fun s => s.id)).length := by simpa using hm'
  have h3 : (sts.map (fun s => s.id)).get ⟨m, hm2⟩ =
      (sts.map (fun s => s.id)).get ⟨m', hm2'⟩ := by
    simp only [List.get_eq_getElem, List.getElem_map]
    exact heq
  have h4 := (List.Nodup.get_inj_iff hids).mp h3
  simpa using h4

theorem move_reassign_map_eq {sts : List SubTask} {i : Nat} {st st' : SubTask}
    (horders : sts.map (fun s => s.order) =
      (List.range sts.length).map Int.ofNat)
    (hids : (sts.map (fun s => s.id)).Nodup)
    (hi0 : 0 < i)
    (hsti : sts[i]? = some st)
    (hsti' : sts[i - 1]? = some st') :
    sts.map (fun st0 =>
      match ((sts.set i st').set (i - 1) st).findIdx?
          (fun x => x.id = st0.id) with
      | some j => { st0 with order := Int.ofNat j }
      | none => st0) =
    (sts.set (i - 1) { st' with order := Int.ofNat i }).set i
      { st with order := Int.ofNat (i - 1) } := by
  obtain ⟨hi, hgi⟩ := List.getElem?_eq_some_iff.mp hsti
  obtain ⟨hi1', hgi1⟩ := List.getElem?_eq_some_iff.mp hsti'
  have hne := nodup_ids_getElem_ne hids
  have hord := orders_range_getElem horders
  have hSw_at : ∀ m, m ≠ i - 1 → m ≠ i →
      ((sts.set i st').set (i - 1) st)[m]? = sts[m]? := by
    intro m h1 h2
    rw [List.getElem?_set_ne (fun hh => h1 hh.symm),
      List.getElem?_set_ne (fun hh => h2 hh.symm)]
  have hSw_i1 : ((sts.set i st').set (i - 1) st)[i - 1]? = some st := by
    rw [List.getElem?_set_self (by simp; omega)]
  have hSw_i : ((sts.set i st').set (i - 1) st)[i]? = some st' := by
    rw [List.getElem?_set_ne (by omega), List.getElem?_set_self hi]
  have hfind_st : ((sts.set i st').set (i - 1) st).findIdx?
      (fun x => x.id = st.id) = some (i - 1) := by
    apply findIdx?_eq_some_of _ _ _ st hSw_i1 (by simp)
    intro j b hj hb
    rw [hSw_at j (by omega) (by omega)] at hb
    obtain ⟨hjl, hgj⟩ := List.getElem?_eq_some_iff.mp hb
    have hbne : b.id ≠ st.id := by
      rw [← hgj, ← hgi]
      exact hne j i hjl hi (by omega)
    simpa using hbne
  have hfind_st' : ((sts.set i st').set (i - 1) st).findIdx?
      (fun x => x.id = st'.id) = some i := by
    apply findIdx?_eq_some_of _ _ _ st' hSw_i (by simp)
    intro j b hj hb
    by_cases hji1 : j = i - 1
    · subst hji1
      rw [hSw_i1] at hb
      replace hb := (Option.some.injEq _ _).mp hb
      subst hb
      have hbne : st.id ≠ st'.id := by
        rw [← hgi, ← hgi1]
        exact hne i (i - 1) hi hi1' (by omega)
      simpa using hbne
    · rw [hSw_at j hji1 (by omega)] at hb
      obtain ⟨hjl, hgj⟩ := List.getElem?_eq_some_iff.mp hb
      have hbne : b.id ≠ st'.id := by
        rw [← hgj, ← hgi1]
        exact hne j (i - 1) hjl hi1' hji1
      simpa using hbne
  have hfind_other : ∀ k (hk : k < sts.length), k ≠ i - 1 → k ≠ i →
      ((sts.set i st').set (i - 1) st).findIdx?
        (fun x => x.id = sts[k].id) = some k := by
    intro k hk hk1 hk2
    apply findIdx?_eq_some_of _ _ _ sts[k]
      (by rw [hSw_at k hk1 hk2]; exact List.getElem?_eq_getElem hk) (by simp)
    intro j b hj hb
    by_cases hji1 : j = i - 1
    · subst hji1
      rw [hSw_i1] at hb
      replace hb := (Option.some.injEq _ _).mp hb
      subst hb
      have hbne : st.id ≠ sts[k].id := by
        rw [← hgi]
        exact hne i k hi hk (fun hh => hk2 hh.symm)
      simpa using hbne
    · by_cases hji : j = i
      · subst hji
        rw [hSw_i] at hb
        replace hb := (Option.some.injEq _ _).mp hb
        subst hb
        have hbne : st'.id ≠ sts[k].id := by
          rw [← hgi1]
          exact hne (j - 1) k hi1' hk (fun hh => hk1 hh.symm)
        simpa using hbne
      · rw [hSw_at j hji1 hji] at hb
        obtain ⟨hjl, hgj⟩ := List.getElem?_eq_some_iff.mp hb
        have hbne : b.id ≠ sts[k].id := by
          rw [← hgj]
          exact hne j k hjl hk (by omega)
        simpa using hbne
  apply List.ext_getElem?
  intro k
  rw [List.getElem?_map]
  by_cases hk : k < sts.length
  · rw [List.getElem?_eq_getElem hk]
    by_cases hk2 : k = i
    · subst hk2
      rw [hgi, Option.map_some', hfind_st,
        List.getElem?_set_self (by simp; omega)]
    · by_cases hk1 : k = i - 1
      · subst hk1
        rw [hgi1, Option.map_some', hfind_st',
          List.getElem?_set_ne (by omega),
          List.getElem?_set_self (by omega)]
      · rw [Option.map_some', hfind_other k hk hk1 hk2,
          List.getElem?_set_ne (by omega), List.getElem?_set_ne (by omega),
          List.getElem?_eq_getElem hk]
        exact congrArg some (setOrder_self (hord k hk))
  · have h1 : sts[k]? = none := List.getElem?_eq_none (by omega)
    rw [h1, List.getElem?_eq_none (by simp; omega)]
    rfl

theorem reassign_swap_eq {sts : List SubTask} {i : Nat} {st st' : SubTask}
    (horders : sts.map (fun s => s.order) =
      (List.range sts.length).map Int.ofNat)
    (hi0 : 0 < i)
    (hsti : sts[i]? = some st)
    (hsti' : sts[i - 1]? = some st') :
    reassignOrders ((sts.set i st').set (i - 1) st) =
      (sts.set (i - 1) { st with order := Int.ofNat (i - 1) }).set i
        { st' with order := Int.ofNat i } := by
  obtain ⟨hi, hgi⟩ := List.getElem?_eq_some_iff.mp hsti
  obtain ⟨hi1', hgi1⟩ := List.getElem?_eq_some_iff.mp hsti'
  have hord := orders_range_getElem horders
  have hSw_at : ∀ m, m ≠ i - 1 → m ≠ i →
      ((sts.set i st').set (i - 1) st)[m]? = sts[m]? := by
    intro m h1 h2
    rw [List.getElem?_set_ne (fun hh => h1 hh.symm),
      List.getElem?_set_ne (fun hh => h2 hh.symm)]
  apply List.ext_getElem?
  intro k
  show (reassignOrdersFrom 0 _)[k]? = _
  rw [reassignOrdersFrom_getElem? 0, Nat.zero_add]
  by_cases hk : k < sts.length
  · by_cases hk2 : k = i
    · subst hk2
      rw [List.getElem?_set_ne (by omega), List.getElem?_set_self hi,
        List.getElem?_set_self (by simp; omega)]
      rfl
    · by_cases hk1 : k = i - 1
      · subst hk1
        rw [List.getElem?_set_self (by simp; omega),
          List.getElem?_set_ne (by omega),
          List.getElem?_set_self (by omega)]
        rfl
      · rw [hSw_at k hk1 hk2, List.getElem?_set_ne (by omega),
          List.getElem?_set_ne (by omega), List.getElem?_eq_getElem hk]
        exact congrArg some (setOrder_self (hord k hk))
  · rw [List.getElem?_eq_none (by simp; omega),
      List.getElem?_eq_none (by simp; omega)]
    rfl

/-- C4: on a task whose N subtasks carry orders `0..N-1`, moving the
subtask at position `i` up (direction -1, `i > 0`) succeeds and yields the
same subtasks with the order fields of positions `i-1` and `i` exchanged;
the displayed (order-sorted) sequence is exactly the original with those
two positions swapped and orders re-normalized to `0..N-1`; the new order
fields are a permutation of `0..N-1` (no gaps or duplicates); and moving
the first subtask up or the last subtask down is a no-op returning
false. -/
theorem move_subtask_swap_spec :
    ∀ (db : List Task) (tid : String) (task : Task) (now : DateTime),
      get_task db tid = some task →
      task.subtasks.map (fun s => s.order) =
        (List.range task.subtasks.length).map Int.ofNat →
      (task.subtasks.map (fun s => s.id)).Nodup →
      ((∀ i st st', 0 < i → task.subtasks[i]? = some st →
          task.subtasks[i - 1]? = some st' →
          move_subtask db tid st.id (-1) now =
            (update_first_task (fun _ => { task with
              subtasks := (task.subtasks.set (i - 1)
                  { st' with order := Int.ofNat i }).set i
                  { st with order := Int.ofNat (i - 1) },
              updated_at := now }) db tid, true) ∧
          List.insertionSort subLe
              ((task.subtasks.set (i - 1)
                { st' with order := Int.ofNat i }).set i
                { st with order := Int.ofNat (i - 1) }) =
            reassignOrders (swapList task.subtasks i (i - 1)) ∧
          List.Perm (((task.subtasks.set (i - 1)
              { st' with order := Int.ofNat i }).set i
              { st with order := Int.ofNat (i - 1) }).map (fun s => s.order))
            ((List.range task.subtasks.length).map Int.ofNat)) ∧
       (∀ st, task.subtasks[0]? = some st →
          move_subtask db tid st.id (-1) now = (db, false)) ∧
       (∀ st, task.subtasks[task.subtasks.length - 1]? = some st →
          move_subtask db tid st.id 1 now = (db, false))) := by
  intro db tid task now hget horders hids
  have hsorted : task.subtasks.Pairwise subLe := sorted_of_orders_range horders
  have hordered : List.insertionSort subLe task.subtasks = task.subtasks :=
    List.Sorted.insertionSort_eq hsorted
  refine ⟨?_, ?_, ?_⟩
  · intro i st st' hi0 hsti hsti'
    obtain ⟨hi, hgi⟩ := List.getElem?_eq_some_iff.mp hsti
    obtain ⟨hi1', hgi1⟩ := List.getElem?_eq_some_iff.mp hsti'
    have hfind : task.subtasks.findIdx? (fun x => x.id = st.id) = some i := by
      apply findIdx?_eq_some_of _ _ _ st hsti (by simp)
      intro j b hj hb
      obtain ⟨hjl, hgj⟩ := List.getElem?_eq_some_iff.mp hb
      have hbne : b.id ≠ st.id := by
        rw [← hgj, ← hgi]
        exact nodup_ids_getElem_ne hids j i hjl hi (by omega)
      simpa using hbne
    have hswap : swapList task.subtasks i (i - 1) =
        (task.subtasks.set i st').set (i - 1) st := by
      simp only [swapList, hsti, hsti']
    have hMR := move_reassign_map_eq horders hids hi0 hsti hsti'
    have hRS := reassign_swap_eq horders hi0 hsti hsti'
    have hc : (0 : Int) ≤ Int.ofNat i + -1 ∧
        Int.ofNat i + -1 < Int.ofNat task.subtasks.length := by
      simp only [Int.ofNat_eq_natCast]
      omega
    have ht : (Int.ofNat i + -1).toNat = i - 1 := by
      simp only [Int.ofNat_eq_natCast]
      omega
    refine ⟨?_, ?_, ?_⟩
    · simp only [move_subtask, hget, hordered, hfind]
      rw [if_pos hc, ht]
      simp only [hswap, hMR]
    · rw [hswap, hRS]
      -- decompositions around the two adjacent positions
      have hd1 : (task.subtasks.set (i - 1)
          { st' with order := Int.ofNat i }).set i
          { st with order := Int.ofNat (i - 1) } =
          task.subtasks.take (i - 1) ++
            { st' with order := Int.ofNat i } ::
            { st with order := Int.ofNat (i - 1) } ::
            task.subtasks.drop (i + 1) :=
        set_set_adjacent_decomp hi0 hi _ _
      have hd2 : (task.subtasks.set (i - 1)
          { st with order := Int.ofNat (i - 1) }).set i
          { st' with order := Int.ofNat i } =
          task.subtasks.take (i - 1) ++
            { st with order := Int.ofNat (i - 1) } ::
            { st' with order := Int.ofNat i } ::
            task.subtasks.drop (i + 1) :=
        set_set_adjacent_decomp hi0 hi _ _
      have hpermE : List.Perm
          ((task.subtasks.set (i - 1)
            { st' with order := Int.ofNat i }).set i
            { st with order := Int.ofNat (i - 1) })
          ((task.subtasks.set (i - 1)
            { st with order := Int.ofNat (i - 1) }).set i
            { st' with order := Int.ofNat i }) := by
        rw [hd1, hd2]
        exact List.Perm.append_left _ (List.Perm.swap _ _ _)
      have hlenT : ((task.subtasks.set (i - 1)
          { st with order := Int.ofNat (i - 1) }).set i
          { st' with order := Int.ofNat i }).length =
          task.subtasks.length := by simp
      have htmap : ((task.subtasks.set (i - 1)
          { st with order := Int.ofNat (i - 1) }).set i
          { st' with order := Int.ofNat i }).map (fun s => s.order) =
          (List.range task.subtasks.length).map Int.ofNat := by
        rw [← hRS, reassignOrders_map_order]
        have hlen2 : ((task.subtasks.set i st').set (i - 1) st).length =
            task.subtasks.length := by simp
        rw [hlen2]
      have hsorted2 : ((task.subtasks.set (i - 1)
          { st with order := Int.ofNat (i - 1) }).set i
          { st' with order := Int.ofNat i }).Pairwise subLe := by
        apply sorted_of_orders_range
        rw [hlenT, htmap]
      have hpermT := (List.perm_insertionSort subLe
        ((task.subtasks.set (i - 1)
          { st' with order := Int.ofNat i }).set i
          { st with order := Int.ofNat (i - 1) })).trans hpermE
      have hkeys : ((List.insertionSort subLe
          ((task.subtasks.set (i - 1)
            { st' with order := Int.ofNat i }).set i
            { st with order := Int.ofNat (i - 1) })).map
              (fun s => s.order)).Nodup := by
        rw [(hpermT.map (fun s => s.order)).nodup_iff, htmap]
        exact (List.nodup_range task.subtasks.length).map
          (fun a b h => Int.ofNat.inj h)
      exact sorted_perm_nodup_orders_eq hpermT
        (List.sorted_insertionSort subLe _) hsorted2 hkeys
    · have htmap : ((task.subtasks.set (i - 1)
          { st with order := Int.ofNat (i - 1) }).set i
          { st' with order := Int.ofNat i }).map (fun s => s.order) =
          (List.range task.subtasks.length).map Int.ofNat := by
        rw [← hRS, reassignOrders_map_order]
        have hlen2 : ((task.subtasks.set i st').set (i - 1) st).length =
            task.subtasks.length := by simp
        rw [hlen2]
      have hd1 : (task.subtasks.set (i - 1)
          { st' with order := Int.ofNat i }).set i
          { st with order := Int.ofNat (i - 1) } =
          task.subtasks.take (i - 1) ++
            { st' with order := Int.ofNat i } ::
            { st with order := Int.ofNat (i - 1) } ::
            task.subtasks.drop (i + 1) :=
        set_set_adjacent_decomp hi0 hi _ _
      have hd2 : (task.subtasks.set (i - 1)
          { st with order := Int.ofNat (i - 1) }).set i
          { st' with order := Int.ofNat i } =
          task.subtasks.take (i - 1) ++
            { st with order := Int.ofNat (i - 1) } ::
            { st' with order := Int.ofNat i } ::
            task.subtasks.drop (i + 1) :=
        set_set_adjacent_decomp hi0 hi _ _
      have hpermE : List.Perm
          ((task.subtasks.set (i - 1)
            { st' with order := Int.ofNat i }).set i
            { st with order := Int.ofNat (i - 1) })
          ((task.subtasks.set (i - 1)
            { st with order := Int.ofNat (i - 1) }).set i
            { st' with order := Int.ofNat i }) := by
        rw [hd1, hd2]
        exact List.Perm.append_left _ (List.Perm.swap _ _ _)
      rw [← htmap]
      exact hpermE.map (fun s => s.order)
  · intro st hst0
    have hfind0 : task.subtasks.findIdx? (fun x => x.id = st.id) =
        some 0 := by
      apply findIdx?_eq_some_of _ _ _ st hst0 (by simp)
      intro j b hj _
      exact absurd hj (Nat.not_lt_zero j)
    simp only [move_subtask, hget, hordered, hfind0]
    rw [if_neg]
    simp only [Int.ofNat_eq_natCast]
    rintro ⟨h1, -⟩
    omega
  · intro st hstL
    obtain ⟨hL, hgL⟩ := List.getElem?_eq_some_iff.mp hstL
    have hfindL : task.subtasks.findIdx? (fun x => x.id = st.id) =
        some (task.subtasks.length - 1) := by
      apply findIdx?_eq_some_of _ _ _ st hstL (by simp)
      intro j b hj hb
      obtain ⟨hjl, hgj⟩ := List.getElem?_eq_some_iff.mp hb
      have hbne : b.id ≠ st.id := by
        rw [← hgj, ← hgL]
        exact nodup_ids_getElem_ne hids j (task.subtasks.length - 1) hjl hL
          (by omega)
      simpa using hbne
    simp only [move_subtask, hget, hordered, hfindL]
    rw [if_neg]
    simp only [Int.ofNat_eq_natCast]
    rintro ⟨-, h2⟩
    omega

/-- Subtask 0 of the reordering witness. -/
def wSubM0 : SubTask :=
  { id := "u0", title := "A", description := "", status := .PENDING,
    order := 0, created_at := 1, completed_at := none, notes := "" }

/-- Subtask 1 of the reordering witness. -/
def wSubM1 : SubTask :=
  { id := "u1", title := "B", description := "", status := .PENDING,
    order := 1, created_at := 1, completed_at := none, notes := "" }

/-- Subtask 2 of the reordering witness. -/
def wSubM2 : SubTask :=
  { id := "u2", title := "C", description := "", status := .PENDING,
    order := 2, created_at := 1, completed_at := none, notes := "" }

/-- Parent task of the reordering witness. -/
def wTaskM : Task :=
  { id := "tm", title := "move", description := "", order := 0,
    status := .IN_PROGRESS, mode := .PLANNING,
    knowledge := .KNOWN_WHAT_KNOWN_HOW,
    subtasks := [wSubM0, wSubM1, wSubM2], exploration_notes := [],
    created_at := 0, updated_at := 0, completed_at := none, priority := 0,
    tags := [], conclusion := "" }

/-- Witness for C4 at a concrete task with three subtasks. -/
theorem move_subtask_swap_spec_witness :
    (get_task [wTaskM] "tm" = some wTaskM ∧
      wTaskM.subtasks.map (fun s => s.order) =
        (List.range wTaskM.subtasks.length).map Int.ofNat ∧
      (wTaskM.subtasks.map (fun s => s.id)).Nodup ∧
      (0 : Nat) < 1 ∧ wTaskM.subtasks[1]? = some wSubM1 ∧
      wTaskM.subtasks[0]? = some wSubM0 ∧
      wTaskM.subtasks[wTaskM.subtasks.length - 1]? = some wSubM2) ∧
    (move_subtask [wTaskM] "tm" wSubM1.id (-1) 6 =
        (update_first_task (fun _ => { wTaskM with
          subtasks := (wTaskM.subtasks.set 0
              { wSubM0 with order := Int.ofNat 1 }).set 1
              { wSubM1 with order := Int.ofNat 0 },
          updated_at := 6 }) [wTaskM] "tm", true) ∧
      List.insertionSort subLe
          ((wTaskM.subtasks.set 0 { wSubM0 with order := Int.ofNat 1 }).set 1
            { wSubM1 with order := Int.ofNat 0 }) =
        reassignOrders (swapList wTaskM.subtasks 1 0) ∧
      List.Perm (((wTaskM.subtasks.set 0
          { wSubM0 with order := Int.ofNat 1 }).set 1
          { wSubM1 with order := Int.ofNat 0 }).map (fun s => s.order))
        ((List.range wTaskM.subtasks.length).map Int.ofNat)) ∧
    move_subtask [wTaskM] "tm" wSubM0.id (-1) 6 = ([wTaskM], false) ∧
    move_subtask [wTaskM] "tm" wSubM2.id 1 6 = ([wTaskM], false) :=
  ⟨⟨by decide, by decide, by decide, by decide, by decide, by decide,
     by decide⟩,
   (move_subtask_swap_spec [wTaskM] "tm" wTaskM 6 (by decide) (by decide)
       (by decide)).1 1 wSubM1 wSubM0 (by decide) (by decide) (by decide),
   (move_subtask_swap_spec [wTaskM] "tm" wTaskM 6 (by decide) (by decide)
       (by decide)).2.1 wSubM0 (by decide),
   (move_subtask_swap_spec [wTaskM] "tm" wTaskM 6 (by decide) (by decide)
       (by decide)).2.2 wSubM2 (by decide)⟩

end ResearcherTerminal
